import Mathlib

/-!
# zps: manifest and transaction engine

A shallow embedding of `action/manifest.go`, `action/dir.go`,
`zpm/transaction.go`, `zpm/manager.go` and `config/cloud.go`.

* Go strings are Lean strings; `fmt.Sprint` over string operands is
  concatenation.
* Pointer receivers become explicit state passing: a method that may write to
  its receiver returns the receiver's new value.
* A run-time panic (nil dereference, failed type assertion) is a value of
  `Panic` returned through `Except`.
* `map[string]int` is an association list with one entry per key.
-/

namespace action

/-! ## Actions -/

/-- Package identity action. Modelled from the spec: the declaration of `Zpkg`
is not part of the sources at hand; the fields are those of the data model. -/
structure Zpkg where
  Name : String
  Version : String
  Publisher : String
  Arch : String
  Os : String
  Summary : String
  Description : String
  deriving DecidableEq, Repr

/-- Free-form label. Modelled from the spec: the declaration of `Tag` is not
part of the sources at hand. -/
structure Tag where
  Name : String
  Value : String
  deriving DecidableEq, Repr

/-- Named version constraint. Modelled from the spec: the declaration of
`Requirement` is not part of the sources at hand; `Name` is the field read by
`Manifest.Validate`. -/
structure Requirement where
  Name : String
  Method : String
  Operation : String
  Version : String
  deriving DecidableEq, Repr

/-- The struct `Dir` of `action/dir.go`. -/
structure Dir where
  Path : String
  Owner : String
  Group : String
  Mode : String
  deriving DecidableEq, Repr

/-- Packaged file. Modelled from the spec: the declaration of `File` is not
part of the sources at hand. -/
structure File where
  Path : String
  Owner : String
  Group : String
  Mode : String
  Digest : String
  Size : Nat
  deriving DecidableEq, Repr

/-- Symbolic link. Modelled from the spec: the declaration of `SymLink` is not
part of the sources at hand. -/
structure SymLink where
  Path : String
  Target : String
  Owner : String
  Group : String
  deriving DecidableEq, Repr

/-- Template action. Modelled from the spec: the declaration of `Template` is
not part of the sources at hand; `Source` is the field read by
`Manifest.Validate`. -/
structure Template where
  Source : String
  Output : String
  Owner : String
  Group : String
  Mode : String
  deriving DecidableEq, Repr

/-- Service action. Modelled from the spec: the declaration of `Service` is not
part of the sources at hand. -/
structure Service where
  Name : String
  deriving DecidableEq, Repr

/-- Signature action. Modelled from the spec: the declaration of `Signature` is
not part of the sources at hand. -/
structure Signature where
  Algorithm : String
  Value : String
  FingerPrint : String
  deriving DecidableEq, Repr

/-- The interface `Action`, closed over the variants the manifest stores. -/
inductive Action where
  | zpkg (z : Zpkg)
  | tag (t : Tag)
  | requirement (r : Requirement)
  | dir (d : Dir)
  | file (f : File)
  | symLink (s : SymLink)
  | template (t : Template)
  | service (s : Service)
  | signature (s : Signature)
  deriving DecidableEq, Repr

/-- `Dir.Key` of `action/dir.go`. -/
def Dir.Key (d : Dir) : String := d.Path

/-- `Dir.Type` of `action/dir.go`. -/
def Dir.Type (_ : Dir) : String := "Dir"

/-- `Dir.Id` of `action/dir.go`: `fmt.Sprint(d.Type(), ".", d.Key())`. -/
def Dir.Id (d : Dir) : String := d.Type ++ "." ++ d.Key

/-- The method `Type` of the interface. `Dir` is `Dir.Type`; for the other
variants the strings are the case labels of the switch in `Manifest.Add`. -/
def Action.Type : Action → String
  | .zpkg _ => "Zpkg"
  | .tag _ => "Tag"
  | .requirement _ => "Requirement"
  | .dir d => d.Type
  | .file _ => "File"
  | .symLink _ => "SymLink"
  | .template _ => "Template"
  | .service _ => "Service"
  | .signature _ => "Signature"

/-- The method `Key` of the interface. `Dir` is `Dir.Key`. Modelled from the
spec: the `Key` methods of the other variants are not part of the sources at
hand; the key is the semantic identity, the path for filesystem actions and the
name for a requirement. -/
def Action.Key : Action → String
  | .zpkg z => z.Name
  | .tag t => t.Name
  | .requirement r => r.Name
  | .dir d => d.Key
  | .file f => f.Path
  | .symLink s => s.Path
  | .template t => t.Source
  | .service s => s.Name
  | .signature s => s.FingerPrint

/-- The method `Id` of the interface, for every variant as in `Dir.Id`:
`fmt.Sprint(Type(), ".", Key())`. -/
def Action.Id (a : Action) : String := a.Type ++ "." ++ a.Key

/-! ## Sorting `Actions` -/

/-- The order of `sort.Sort` on `Actions`: `keyLE a b` says that `b` is not
`Less` than `a`. Modelled from the spec: `Actions.Less` (the `sort.Interface`
of `Actions`) is not part of the sources at hand; actions are ordered by path,
that is by `Key`, ascending. Go compares strings lexicographically, code unit
by code unit. -/
def keyLE (a b : Action) : Prop := a.Key.data ≤ b.Key.data

instance keyLE.decidable : DecidableRel keyLE :=
  fun a b => inferInstanceAs (Decidable (a.Key.data ≤ b.Key.data))

instance keyLE.isTotal : IsTotal Action keyLE :=
  ⟨fun a b => le_total a.Key.data b.Key.data⟩

instance keyLE.isTrans : IsTrans Action keyLE :=
  ⟨fun _ _ _ h1 h2 => le_trans h1 h2⟩

/-- `sort.Sort(actions)`: a permutation of the slice in which every element is
`keyLE` the later ones. `sort.Sort` is not stable, so the order among
actions of equal key is unspecified; this model keeps the original order among
them. -/
def sortActions (actions : List Action) : List Action :=
  List.insertionSort keyLE actions

/-- `sort.Sort(sort.Reverse(actions))`. -/
def sortActionsReverse (actions : List Action) : List Action :=
  List.insertionSort (fun a b => keyLE b a) actions

/-! ## The index map -/

/-- The type `map[string]int` of the field `index`. -/
abbrev IndexMap := List (String × Nat)

/-- The two-valued map read `v, ok := m[k]`. -/
def IndexMap.get? (ix : IndexMap) (k : String) : Option Nat :=
  match ix with
  | [] => none
  | (k1, v) :: rest => if k1 = k then some v else IndexMap.get? rest k

/-- The map read `m[k]`, zero when the key is absent. -/
def IndexMap.at (ix : IndexMap) (k : String) : Nat := (ix.get? k).getD 0

/-- The map without its entry for `k`. -/
def IndexMap.erase (ix : IndexMap) (k : String) : IndexMap :=
  match ix with
  | [] => []
  | (k1, v) :: rest =>
    if k1 = k then IndexMap.erase rest k else (k1, v) :: IndexMap.erase rest k

/-- The map write `m[k] = v`. -/
def IndexMap.put (ix : IndexMap) (k : String) (v : Nat) : IndexMap :=
  (k, v) :: ix.erase k

/-! ## Manifest -/

/-- The struct `Manifest`. -/
structure Manifest where
  Zpkg : Option Zpkg
  Tags : List Tag
  Requirements : List Requirement
  Dirs : List Dir
  Files : List File
  SymLinks : List SymLink
  Templates : List Template
  Services : List Service
  Signatures : List Signature
  index : IndexMap
  deriving DecidableEq, Repr

/-- `NewManifest`: every field zero, the index an empty map. -/
def NewManifest : Manifest :=
  { Zpkg := none, Tags := [], Requirements := [], Dirs := [], Files := [],
    SymLinks := [], Templates := [], Services := [], Signatures := [], index := [] }

/-- `Manifest.Exists`. -/
def Manifest.Exists (m : Manifest) (action : Action) : Bool :=
  (m.index.get? action.Id).isSome

/-- One iteration of the outer loop of `Manifest.Section`: the switch on
`filter`. -/
def Manifest.sectionItems (m : Manifest) (filter : String) : List Action :=
  if filter = "Tag" then m.Tags.map Action.tag
  else if filter = "Requirement" then m.Requirements.map Action.requirement
  else if filter = "Dir" then m.Dirs.map Action.dir
  else if filter = "File" then m.Files.map Action.file
  else if filter = "SymLink" then m.SymLinks.map Action.symLink
  else if filter = "Template" then m.Templates.map Action.template
  else if filter = "Service" then m.Services.map Action.service
  else if filter = "Signature" then m.Signatures.map Action.signature
  else []

/-- `Manifest.Section`. -/
def Manifest.Section (m : Manifest) (filters : List String) : List Action :=
  filters.foldl (fun items filter => items ++ m.sectionItems filter) []

/-- One loop of `Manifest.Index`: `m.index[act.Id()] = index` over a section,
given as the list of its ids. -/
def indexLoop (ids : List String) (start : Nat) (ix : IndexMap) : IndexMap :=
  match ids with
  | [] => ix
  | id :: rest => indexLoop rest (start + 1) (ix.put id start)

/-- `Manifest.Index`. -/
def Manifest.Index (m : Manifest) : Manifest :=
  let ix := indexLoop (m.Tags.map (fun a => (Action.tag a).Id)) 0 m.index
  let ix := indexLoop (m.Requirements.map (fun a => (Action.requirement a).Id)) 0 ix
  let ix := indexLoop (m.Dirs.map (fun a => (Action.dir a).Id)) 0 ix
  let ix := indexLoop (m.Files.map (fun a => (Action.file a).Id)) 0 ix
  let ix := indexLoop (m.SymLinks.map (fun a => (Action.symLink a).Id)) 0 ix
  let ix := indexLoop (m.Templates.map (fun a => (Action.template a).Id)) 0 ix
  let ix := indexLoop (m.Services.map (fun a => (Action.service a).Id)) 0 ix
  let ix := indexLoop (m.Signatures.map (fun a => (Action.signature a).Id)) 0 ix
  { m with index := ix }

/-- `Manifest.Add`. The switch on `action.Type()` followed by the type
assertion is the match on the variant; a `Zpkg` matches no case. A slice write
at a position past the end, a panic in Go, leaves the slice as it is here. -/
def Manifest.Add (m0 : Manifest) (action : Action) : Manifest :=
  let m := if m0.index.length = 0 then m0.Index else m0
  match action with
  | .tag t =>
    if m.Exists action then { m with Tags := m.Tags.set (m.index.at action.Id) t }
    else { m with Tags := m.Tags ++ [t],
                  index := m.index.put action.Id ((m.Tags ++ [t]).length - 1) }
  | .requirement r =>
    if m.Exists action then
      { m with Requirements := m.Requirements.set (m.index.at action.Id) r }
    else { m with Requirements := m.Requirements ++ [r],
                  index := m.index.put action.Id ((m.Requirements ++ [r]).length - 1) }
  | .dir d =>
    if m.Exists action then { m with Dirs := m.Dirs.set (m.index.at action.Id) d }
    else { m with Dirs := m.Dirs ++ [d],
                  index := m.index.put action.Id ((m.Dirs ++ [d]).length - 1) }
  | .file f =>
    if m.Exists action then { m with Files := m.Files.set (m.index.at action.Id) f }
    else { m with Files := m.Files ++ [f],
                  index := m.index.put action.Id ((m.Files ++ [f]).length - 1) }
  | .template t =>
    if m.Exists action then
      { m with Templates := m.Templates.set (m.index.at action.Id) t }
    else { m with Templates := m.Templates ++ [t],
                  index := m.index.put action.Id ((m.Templates ++ [t]).length - 1) }
  | .service s =>
    if m.Exists action then { m with Services := m.Services.set (m.index.at action.Id) s }
    else { m with Services := m.Services ++ [s],
                  index := m.index.put action.Id ((m.Services ++ [s]).length - 1) }
  | .signature s =>
    if m.Exists action then
      { m with Signatures := m.Signatures.set (m.index.at action.Id) s }
    else { m with Signatures := m.Signatures ++ [s],
                  index := m.index.put action.Id ((m.Signatures ++ [s]).length - 1) }
  | .symLink s =>
    if m.Exists action then { m with SymLinks := m.SymLinks.set (m.index.at action.Id) s }
    else { m with SymLinks := m.SymLinks ++ [s],
                  index := m.index.put action.Id ((m.SymLinks ++ [s]).length - 1) }
  | .zpkg _ => m

/-- `Manifest.Actions`, returned with the receiver as the call leaves it. The
slice `fs` that is sorted in place is the fresh one built by `Section`. -/
def Manifest.Actions (m : Manifest) : Manifest × List (Option Action) :=
  let fs := sortActions (m.Section ["Dir", "File", "SymLink"])
  (m, [m.Zpkg.map Action.zpkg]
        ++ (m.Section ["Tag"]).map some
        ++ (m.Section ["Requirement"]).map some
        ++ (m.Section ["Template"]).map some
        ++ (m.Section ["Service"]).map some
        ++ (m.Section ["Signature"]).map some
        ++ fs.map some)

/-- A run-time panic. -/
inductive Panic where
  | nilPointerDereference
  | typeAssertion
  | indexOutOfRange
  deriving DecidableEq, Repr

/-- The three errors `Manifest.Validate` returns; the conflict carries the two
actions its message describes. -/
inductive ValidateError where
  | selfRequirement
  | conflict (prev cur : Action)
  | templateSource
  deriving DecidableEq, Repr

/-- The first loop of `Manifest.Validate`: `true` when it returns the error.
Reading `m.Zpkg.Name` through a nil `Zpkg` panics. -/
def selfReference (zpkg : Option Zpkg) : List Action → Except Panic Bool
  | [] => .ok false
  | .requirement r :: rest =>
    match zpkg with
    | none => .error .nilPointerDereference
    | some z => if r.Name = z.Name then .ok true else selfReference zpkg rest
  | _ :: _ => .error .typeAssertion

/-- The second loop of `Manifest.Validate` over the sorted slice: the first
element whose key equals that of the element before it. -/
def firstConflict : List Action → Option (Action × Action)
  | [] => none
  | [_] => none
  | prev :: cur :: rest =>
    if cur.Key = prev.Key then some (prev, cur) else firstConflict (cur :: rest)

/-- The third loop of `Manifest.Validate`: `true` when it returns the error. -/
def missingSource (index : IndexMap) : List Action → Except Panic Bool
  | [] => .ok false
  | .template t :: rest =>
    if (index.get? ("File." ++ t.Source)).isSome then missingSource index rest
    else .ok true
  | _ :: _ => .error .typeAssertion

/-- `Manifest.Validate`, returned with the receiver as the call leaves it:
`none` is the nil error. -/
def Manifest.Validate (m : Manifest) : Manifest × Except Panic (Option ValidateError) :=
  (m, do
    let reqs := m.Section ["Requirement"]
    if (← selfReference m.Zpkg reqs) then
      return some .selfRequirement
    let actions := sortActions (m.Section ["Dir", "File", "SymLink"])
    match firstConflict actions with
    | some (prev, cur) => return some (.conflict prev cur)
    | none =>
      let tpls := m.Section ["Template"]
      if (← missingSource m.index tpls) then
        return some .templateSource
      return none)

/-- `Manifest.Load`. `json.Unmarshal` is taken as the parameter `unmarshal`: it
returns the receiver with its exported fields as decoded and the decoding
error, if any; the unexported `index` is out of its reach. -/
def Manifest.Load (unmarshal : String → Manifest → Manifest × Option String)
    (m : Manifest) (manifest : String) : Manifest × Option String :=
  let decoded := { (unmarshal manifest m).1 with index := m.index }
  match (unmarshal manifest m).2 with
  | some err => (decoded, some err)
  | none => (decoded.Index, none)

/-! ## How manifests come about -/

/-- The manifests built from `NewManifest` by setting `Zpkg` and calling
`Add`. -/
inductive Built : Manifest → Prop where
  | new : Built NewManifest
  | setZpkg {m : Manifest} (z : Zpkg) : Built m → Built { m with Zpkg := some z }
  | add {m : Manifest} (a : Action) : Built m → Built (m.Add a)

/-- The manifests that are built, or come from a successful `Load` into a fresh
manifest. -/
inductive Produced : Manifest → Prop where
  | built {m : Manifest} : Built m → Produced m
  | load {m : Manifest} (unmarshal : String → Manifest → Manifest × Option String)
      (manifest : String) :
      Manifest.Load unmarshal NewManifest manifest = (m, none) → Produced m

/-- Every entry of the index points at an action with that id, at that
position of the action's section. -/
def IndexSound (m : Manifest) : Prop :=
  ∀ id i, m.index.get? id = some i →
    ∃ a, (m.sectionItems a.Type)[i]? = some a ∧ a.Id = id

/-- Every stored action has an entry in the index. -/
def IndexCovers (m : Manifest) : Prop :=
  ∀ T, ∀ a ∈ m.sectionItems T, (m.index.get? a.Id).isSome = true

/-- The index maps the id of every stored action to its position. -/
def IndexExact (m : Manifest) : Prop :=
  ∀ T i a, (m.sectionItems T)[i]? = some a → m.index.get? a.Id = some i

/-! ## Example manifests -/

/-- A package `p` with a directory, a file, a template over the file and a
requirement on `q`. -/
def exampleManifest : Manifest :=
  (((({ NewManifest with Zpkg := some ⟨"p", "1.0.0", "", "", "", "", ""⟩ }).Add
    (.dir ⟨"/etc", "root", "root", "0755"⟩)).Add
    (.file ⟨"/etc/a.tmpl", "root", "root", "0644", "", 0⟩)).Add
    (.template ⟨"/etc/a.tmpl", "/etc/a", "root", "root", "0644"⟩)).Add
    (.requirement ⟨"q", "depends", "ANY", ""⟩)

/-- A fresh manifest, no `Zpkg` set, with one requirement added. -/
def requirementOnly : Manifest :=
  NewManifest.Add (.requirement ⟨"q", "depends", "ANY", ""⟩)

end action

namespace zpm

open action

/-! ## Collaborators of the transaction

The packages `zps`, `zpkg`, `provider` and the state database are not part of
the sources at hand. What `zpm/transaction.go` calls in them is taken as data
(`Pkg`, `Solution`, `Reader`), as parameters (`Env`) or modelled from the spec
(`State`). -/

/-- The methods of `zps.Solvable` the transaction calls, as fields. -/
structure Pkg where
  Name : String
  Id : String
  FileName : String
  deriving DecidableEq, Repr

set_option linter.dupNamespace false in
/-- The struct `zps.Operation`: `Operation` is `"install"`, `"remove"` or
`"noop"`. -/
structure Operation where
  Operation : String
  Package : Pkg
  deriving DecidableEq, Repr

/-- An entry of the `Objects` table. Modelled from the spec: the state database
is not part of the sources at hand; an entry is a claim `pkg`, `type` on a
path. -/
structure FsEntry where
  Path : String
  Pkg : String
  «Type» : String
  deriving DecidableEq, Repr

/-- An entry of the `Transactions` table. Modelled from the spec: the log holds
`(tx_id, package_id, operation, timestamp)`. -/
structure TxEntry where
  Id : String
  PkgId : String
  Operation : String
  Date : Nat
  deriving DecidableEq, Repr

/-- The errors `Realize` returns: those of a collaborator, and the two
conflicts, which carry what their messages describe. -/
inductive Error where
  | external (msg : String)
  | packageConflict (prevPkg : String) (prev : Action) (curPkg : String) (cur : Action)
  | imageConflict (entry : FsEntry) (candidate : String)
  deriving DecidableEq, Repr

/-- How a call ends: it returns nil, returns an error, or panics. -/
inductive Outcome where
  | ok
  | failed (e : Error)
  | panicked (p : Panic)
  deriving DecidableEq, Repr

/-- The results of the two methods of `zps.Solution` that `Realize` calls. -/
structure Solution where
  Operations : List Operation
  Graph : Except Error (List Operation)

/-- The struct `zpkg.Reader` after `Read`: the manifest of the artifact. The
payload handle is only passed on to the providers. -/
structure Reader where
  Manifest : Manifest
  deriving DecidableEq, Repr

/-- The state database. Modelled from the spec: three tables, `Packages` from
name to manifest, `Objects` from path to claims, `Transactions` an append-only
log. -/
structure State where
  Packages : List (String × Manifest)
  Objects : List FsEntry
  Transactions : List TxEntry
  deriving DecidableEq, Repr

/-- `Packages.Get`: the manifest stored under the name, nil when there is
none. -/
def State.PackagesGet (s : State) (name : String) : Option Manifest :=
  (s.Packages.find? (fun p => p.1 = name)).map Prod.snd

/-- `Packages.Put`: one manifest per installed name. -/
def State.PackagesPut (s : State) (name : String) (m : Manifest) : State :=
  { s with Packages := s.Packages.filter (fun p => ¬ p.1 = name) ++ [(name, m)] }

/-- `Packages.Del`. -/
def State.PackagesDel (s : State) (name : String) : State :=
  { s with Packages := s.Packages.filter (fun p => ¬ p.1 = name) }

/-- `Objects.Get`: the claims on the path. -/
def State.ObjectsGet (s : State) (path : String) : List FsEntry :=
  s.Objects.filter (fun e => e.Path = path)

/-- `Objects.Put`: the claim of `pkg` on the path, replacing an earlier one of
the same package. -/
def State.ObjectsPut (s : State) (path pkg type : String) : State :=
  { s with Objects :=
      s.Objects.filter (fun e => ¬ (e.Path = path ∧ e.Pkg = pkg)) ++ [⟨path, pkg, type⟩] }

/-- `Objects.Del`: drops the claim of `pkg` on the path. -/
def State.ObjectsDel (s : State) (path pkg : String) : State :=
  { s with Objects := s.Objects.filter (fun e => ¬ (e.Path = path ∧ e.Pkg = pkg)) }

/-- `Transactions.Put`: appends to the log. -/
def State.TransactionsPut (s : State) (id pkgId operation : String) (date : Nat) : State :=
  { s with Transactions := s.Transactions ++ [⟨id, pkgId, operation, date⟩] }

/-- The calls the transaction makes to the providers and to the state
database. -/
inductive Call where
  | provider (phase : String) (a : Action)
  | packagesGet (name : String)
  | packagesPut (name : String) (m : Manifest)
  | packagesDel (name : String)
  | objectsGet (path : String)
  | objectsPut (path pkg type : String)
  | objectsDel (path pkg : String)
  | transactionsPut (id pkgId operation : String) (date : Nat)
  deriving DecidableEq, Repr

/-- What the transaction is run against: the functions of the absent packages
and, for every provider or database call, the error it returns, if any. -/
structure Env where
  /-- The function `zps.NewPkgFromManifest`. -/
  NewPkgFromManifest : Manifest → Except Error Pkg
  /-- The calls `zpkg.NewReader(t.cache.GetFile(name), "")` and `reader.Read()`. -/
  Read : String → Except Error Reader
  /-- The error of a provider or database call. -/
  fails : Call → Option Error

/-- The struct `Transaction`, with the log of the provider calls and database
writes made so far. The emitter only reports progress and is left out. -/
structure Transaction where
  targetPath : String
  state : State
  solution : Option Solution
  readers : List (String × Reader)
  id : String
  date : Nat
  log : List Call

/-- The map read `t.readers[name]`. -/
def Transaction.reader (t : Transaction) (name : String) : Option Reader :=
  (t.readers.find? (fun p => p.1 = name)).map Prod.snd

/-- The map write `t.readers[name] = reader`. -/
def Transaction.setReader (t : Transaction) (name : String) (reader : Reader) : Transaction :=
  { t with readers := t.readers.filter (fun p => ¬ p.1 = name) ++ [(name, reader)] }

/-- A provider call or a database write: it is logged; when it returns no error
the state changes by `apply`. -/
def Transaction.perform (env : Env) (t : Transaction) (c : Call) (apply : State → State) :
    Transaction × Outcome :=
  match env.fails c with
  | some e => ({ t with log := t.log ++ [c] }, .failed e)
  | none => ({ t with state := apply t.state, log := t.log ++ [c] }, .ok)

/-- The loop of `Transaction.loadReaders`. -/
def Transaction.loadReadersLoop (env : Env) (t : Transaction) :
    List Operation → Transaction × Outcome
  | [] => (t, .ok)
  | operation :: rest =>
    if operation.Operation = "install" then
      match env.Read operation.Package.FileName with
      | .error e => (t, .failed e)
      | .ok reader =>
        match env.NewPkgFromManifest reader.Manifest with
        | .error e => (t, .failed e)
        | .ok pkg => Transaction.loadReadersLoop env (t.setReader pkg.Name reader) rest
    else Transaction.loadReadersLoop env t rest

/-- `Transaction.loadReaders`. A nil solution is dereferenced. -/
def Transaction.loadReaders (env : Env) (t : Transaction) : Transaction × Outcome :=
  match t.solution with
  | none => (t, .panicked .nilPointerDereference)
  | some solution => t.loadReadersLoop env solution.Operations

/-- The first loop of `Transaction.solutionConflicts`: every action of
`Section("dir", "file", "symlink")` of every reader, with the name of the
package the `lookup` map holds for it. The readers are visited in the order of
the list. -/
def Transaction.gather (env : Env) : List (String × Reader) → Except Error (List (Action × String))
  | [] => .ok []
  | (_, reader) :: rest =>
    match env.NewPkgFromManifest reader.Manifest with
    | .error e => .error e
    | .ok pkg =>
      match Transaction.gather env rest with
      | .error e => .error e
      | .ok more =>
        .ok ((reader.Manifest.Section ["dir", "file", "symlink"]).map (fun a => (a, pkg.Name))
          ++ more)

/-- `sort.Sort(fsActions)`, each action with its package. -/
def sortOwned (l : List (Action × String)) : List (Action × String) :=
  List.insertionSort (fun a b => keyLE a.1 b.1) l

/-- The second loop of `Transaction.solutionConflicts` over the sorted slice. -/
def firstPackageConflict : List (Action × String) → Option Error
  | [] => none
  | [_] => none
  | prev :: act :: rest =>
    if act.1.Key = prev.1.Key ∧ act.1.Type ≠ "dir" ∧ prev.1.Type ≠ "dir" then
      some (.packageConflict prev.2 prev.1 act.2 act.1)
    else firstPackageConflict (act :: rest)

/-- `Transaction.solutionConflicts`. -/
def Transaction.solutionConflicts (env : Env) (t : Transaction) : Outcome :=
  match Transaction.gather env t.readers with
  | .error e => .failed e
  | .ok fsActions =>
    match firstPackageConflict (sortOwned fsActions) with
    | some e => .failed e
    | none => .ok

/-- The innermost loop of `Transaction.imageConflicts`, over the entries of one
path. -/
def entryConflict (pkgName : String) (a : Action) : List FsEntry → Option Error
  | [] => none
  | entry :: rest =>
    if entry.Pkg ≠ pkgName ∧ entry.Type ≠ "dir" ∧ a.Type ≠ "dir" then
      some (.imageConflict entry pkgName)
    else entryConflict pkgName a rest

/-- The loop of `Transaction.imageConflicts` over the actions of one reader. -/
def Transaction.actionConflicts (env : Env) (t : Transaction) (pkgName : String) :
    List Action → Option Error
  | [] => none
  | a :: rest =>
    match env.fails (.objectsGet a.Key) with
    | some e => some e
    | none =>
      match entryConflict pkgName a (t.state.ObjectsGet a.Key) with
      | some e => some e
      | none => Transaction.actionConflicts env t pkgName rest

/-- The outer loop of `Transaction.imageConflicts`. -/
def Transaction.imageConflictsLoop (env : Env) (t : Transaction) :
    List (String × Reader) → Outcome
  | [] => .ok
  | (_, reader) :: rest =>
    match env.NewPkgFromManifest reader.Manifest with
    | .error e => .failed e
    | .ok pkg =>
      match t.actionConflicts env pkg.Name (reader.Manifest.Section ["dir", "file", "symlink"]) with
      | some e => .failed e
      | none => Transaction.imageConflictsLoop env t rest

/-- `Transaction.imageConflicts`. -/
def Transaction.imageConflicts (env : Env) (t : Transaction) : Outcome :=
  t.imageConflictsLoop env t.readers

/-- A loop of calls, one per element, that stops at the first error. -/
def Transaction.performAll {α : Type} (env : Env) (call : α → Call) (apply : α → State → State) :
    Transaction → List α → Transaction × Outcome
  | t, [] => (t, .ok)
  | t, x :: rest =>
    match t.perform env (call x) (apply x) with
    | (t1, .ok) => Transaction.performAll env call apply t1 rest
    | r => r

/-- `Transaction.install`. A provider acts on the image only; the state is
written by the `Put` calls. -/
def Transaction.install (env : Env) (t : Transaction) (pkg : Pkg) : Transaction × Outcome :=
  match t.reader pkg.Name with
  | none => (t, .panicked .nilPointerDereference)
  | some reader =>
    match env.NewPkgFromManifest reader.Manifest with
    | .error e => (t, .failed e)
    | .ok pkg =>
      let contents := sortActions (reader.Manifest.Section ["dir", "file", "symlink"])
      match Transaction.performAll env (fun fsObject => Call.provider "install" fsObject)
          (fun _ s => s) t contents with
      | (t1, .ok) =>
        match t1.perform env (.packagesPut pkg.Name reader.Manifest)
            (fun s => s.PackagesPut pkg.Name reader.Manifest) with
        | (t2, .ok) =>
          Transaction.performAll env
            (fun fsObject => Call.objectsPut fsObject.Key pkg.Name fsObject.Type)
            (fun fsObject s => s.ObjectsPut fsObject.Key pkg.Name fsObject.Type) t2 contents
        | r => r
      | r => r

/-- `Transaction.remove`. -/
def Transaction.remove (env : Env) (t : Transaction) (pkg : Pkg) : Transaction × Outcome :=
  match env.fails (.packagesGet pkg.Name) with
  | some e => (t, .failed e)
  | none =>
    match t.state.PackagesGet pkg.Name with
    | none => (t, .ok)
    | some lookup =>
      match env.NewPkgFromManifest lookup with
      | .error e => (t, .failed e)
      | .ok pkg =>
        let contents := sortActionsReverse (lookup.Section ["dir", "file", "symlink"])
        match Transaction.performAll env (fun fsObject => Call.provider "remove" fsObject)
            (fun _ s => s) t contents with
        | (t1, .ok) =>
          match t1.perform env (.packagesDel pkg.Name) (fun s => s.PackagesDel pkg.Name) with
          | (t2, .ok) =>
            match Transaction.performAll env
                (fun fsObject => Call.objectsDel fsObject.Key pkg.Name)
                (fun fsObject s => s.ObjectsDel fsObject.Key pkg.Name) t2 contents with
            | (t3, .ok) => (t3, .ok)
            | r => r
          | r => r
        | r => r

/-- The `Transactions.Put` call that ends an iteration of the loop of
`Realize`. -/
def Transaction.record (env : Env) (t : Transaction) (pkgId operation : String) :
    Transaction × Outcome :=
  t.perform env (.transactionsPut t.id pkgId operation t.date)
    (fun s => s.TransactionsPut t.id pkgId operation t.date)

/-- The switch in the loop of `Transaction.Realize`. -/
def Transaction.dispatch (env : Env) (t : Transaction) (operation : Operation) :
    Transaction × Outcome :=
  if operation.Operation = "remove" then t.remove env operation.Package
  else if operation.Operation = "install" then
    match env.fails (.packagesGet operation.Package.Name) with
    | some e => (t, .failed e)
    | none =>
      match t.state.PackagesGet operation.Package.Name with
      | some lookup =>
        match env.NewPkgFromManifest lookup with
        | .error e => (t, .failed e)
        | .ok lns =>
          match t.remove env operation.Package with
          | (t1, .ok) =>
            match t1.record env lns.Id "remove" with
            | (t2, .ok) => t2.install env operation.Package
            | r => r
          | r => r
      | none => t.install env operation.Package
  else (t, .ok)

/-- One iteration of the loop of `Transaction.Realize`. -/
def Transaction.step (env : Env) (t : Transaction) (operation : Operation) :
    Transaction × Outcome :=
  match t.dispatch env operation with
  | (t1, .ok) =>
    if operation.Operation ≠ "noop" then
      t1.record env operation.Package.Id operation.Operation
    else (t1, .ok)
  | r => r

/-- The loop of `Transaction.Realize` over the operations. -/
def Transaction.apply (env : Env) : Transaction → List Operation → Transaction × Outcome
  | t, [] => (t, .ok)
  | t, operation :: rest =>
    match t.step env operation with
    | (t1, .ok) => Transaction.apply env t1 rest
    | r => r

/-- `Transaction.Realize` from the conflict checks on, the readers loaded. -/
def Transaction.realizeLoaded (env : Env) (t : Transaction) : Transaction × Outcome :=
  match t.solutionConflicts env with
  | .ok =>
    match t.imageConflicts env with
    | .ok =>
      match t.solution with
      | none => (t, .panicked .nilPointerDereference)
      | some solution =>
        match solution.Graph with
        | .error e => (t, .failed e)
        | .ok operations => Transaction.apply env t operations
    | r => (t, r)
  | r => (t, r)

/-- `Transaction.Realize`. -/
def Transaction.Realize (env : Env) (t : Transaction) (solution : Solution) :
    Transaction × Outcome :=
  match ({ t with solution := some solution, readers := [] } : Transaction).loadReaders env with
  | (t1, .ok) => t1.realizeLoaded env
  | r => r

/-- `NewTransaction`: the id and the date are those the caller draws from
`ksuid.New()` and `time.Now()`. -/
def NewTransaction (targetPath : String) (state : State) (id : String) (date : Nat) :
    Transaction :=
  { targetPath := targetPath, state := state, solution := none, readers := [],
    id := id, date := date, log := [] }

/-! ## Example packages and transactions -/

/-- A manifest with a `Zpkg` and one `File`. -/
def fileManifest (name version path : String) : Manifest :=
  ({ NewManifest with Zpkg := some ⟨name, version, "", "", "", "", ""⟩ }).Add
    (.file ⟨path, "root", "root", "0644", "", 0⟩)

/-- The package the examples derive from a manifest: named and identified by
its `Zpkg`; a manifest without `Zpkg` gives an error. -/
def examplePkg (m : Manifest) : Except Error Pkg :=
  match m.Zpkg with
  | none => .error (.external "manifest without zpkg")
  | some z => .ok ⟨z.Name, z.Name ++ "@" ++ z.Version, z.Name ++ "-" ++ z.Version ++ ".zpkg"⟩

/-- An environment in which no provider and no database call fails, with the
artifacts of `P-1.0.0`, `Q-1.0.0` and `A-1.1.0` in the cache; `P` and `Q` both
ship the file `/etc/x`. -/
def exampleEnv : Env :=
  { NewPkgFromManifest := examplePkg,
    Read := fun file =>
      if file = "P-1.0.0.zpkg" then .ok ⟨fileManifest "P" "1.0.0" "/etc/x"⟩
      else if file = "Q-1.0.0.zpkg" then .ok ⟨fileManifest "Q" "1.0.0" "/etc/x"⟩
      else if file = "A-1.1.0.zpkg" then .ok ⟨fileManifest "A" "1.1.0" "/opt/a"⟩
      else .error (.external "no such file"),
    fails := fun _ => none }

/-- The solvable of a package of the examples. -/
def pkgOf (name version : String) : Pkg :=
  ⟨name, name ++ "@" ++ version, name ++ "-" ++ version ++ ".zpkg"⟩

/-- An empty state database. -/
def emptyState : State := { Packages := [], Objects := [], Transactions := [] }

/-- The solution that installs `P` and `Q`. -/
def installPQ : Solution :=
  { Operations := [⟨"install", pkgOf "P" "1.0.0"⟩, ⟨"install", pkgOf "Q" "1.0.0"⟩],
    Graph := .ok [⟨"install", pkgOf "P" "1.0.0"⟩, ⟨"install", pkgOf "Q" "1.0.0"⟩] }

/-- A transaction on the empty state with the readers of `P` and `Q` loaded. -/
def loadedPQ : Transaction :=
  { NewTransaction "/" emptyState "tx1" 7 with
    solution := some installPQ,
    readers := [("P", ⟨fileManifest "P" "1.0.0" "/etc/x"⟩),
                ("Q", ⟨fileManifest "Q" "1.0.0" "/etc/x"⟩)] }

/-- A state in which `P-1.0.0` is installed and owns the file `/etc/x`. -/
def stateWithP : State :=
  { Packages := [("P", fileManifest "P" "1.0.0" "/etc/x")],
    Objects := [⟨"/etc/x", "P", "File"⟩],
    Transactions := [⟨"tx0", "P@1.0.0", "install", 3⟩] }

/-- A transaction on `stateWithP` with the reader of `Q` loaded. -/
def loadedQ : Transaction :=
  { NewTransaction "/" stateWithP "tx1" 7 with
    solution := some { Operations := [⟨"install", pkgOf "Q" "1.0.0"⟩],
                       Graph := .ok [⟨"install", pkgOf "Q" "1.0.0"⟩] },
    readers := [("Q", ⟨fileManifest "Q" "1.0.0" "/etc/x"⟩)] }

/-- A state in which `A-1.0.0` is installed. -/
def stateWithA : State :=
  { Packages := [("A", fileManifest "A" "1.0.0" "/opt/a")],
    Objects := [⟨"/opt/a", "A", "File"⟩],
    Transactions := [⟨"tx0", "A@1.0.0", "install", 3⟩] }

/-- A transaction on `stateWithA` with the reader of `A-1.1.0` loaded. -/
def loadedA : Transaction :=
  { NewTransaction "/" stateWithA "tx1" 7 with
    solution := some { Operations := [⟨"install", pkgOf "A" "1.1.0"⟩],
                       Graph := .ok [⟨"install", pkgOf "A" "1.1.0"⟩] },
    readers := [("A", ⟨fileManifest "A" "1.1.0" "/opt/a"⟩)] }

end zpm

namespace action

/-! ## Manifest JSON -/

/-- What `encoding/json` sees of a manifest: the exported fields. The field
`index` is unexported and takes no part in the encoding. -/
def Manifest.exported (m : Manifest) : Manifest := { m with index := [] }

/-- `Manifest.ToJson`, returned with the receiver as the call leaves it.
`json.Marshal` is the parameter `marshal`, a function of the exported fields;
its error is dropped as in the source. -/
def Manifest.ToJson (marshal : Manifest → String) (m : Manifest) : Manifest × String :=
  (m, marshal m.exported)

/-- `Manifest.ToSigningJson`, returned with the receiver as the call leaves it:
`s := *m` is a copy of the struct, and `s.Signatures = nil` writes to the copy. -/
def Manifest.ToSigningJson (marshal : Manifest → String) (m : Manifest) : Manifest × String :=
  let s := { m with Signatures := [] }
  (m, marshal s.exported)

/-- An encoding for the examples: the ids of the stored actions, section by
section. -/
def exampleMarshal (m : Manifest) : String :=
  String.intercalate ","
    ((m.Section ["Tag", "Requirement", "Dir", "File", "SymLink", "Template", "Service",
      "Signature"]).map Action.Id)

end action

namespace config

open action

/-! ## Cloud metadata -/

/-- The pieces of a string between the occurrences of a separator: one more
piece than there are separators. -/
def splitChars (sep : Char) : List Char → List (List Char)
  | [] => [[]]
  | c :: cs =>
    if c = sep then [] :: splitChars sep cs
    else
      match splitChars sep cs with
      | [] => [[c]]
      | piece :: pieces => (c :: piece) :: pieces

/-- `strings.Split(s, sep)` for a separator of one character. -/
def Split (s : String) (sep : Char) : List String :=
  (splitChars sep s.data).map String.mk

/-- The map write `tags[k] = v` on the map of tags. -/
def putTag (tags : List (String × String)) (k v : String) : List (String × String) :=
  tags.filter (fun p => ¬ p.1 = k) ++ [(k, v)]

/-- What the three metadata services answer, each `none` when the service is
not available or a call to it returns an error.
* `aws`: the reservations of `DescribeInstances`, each with its instances, each
  with its tags;
* `azure`: the field `compute.tags` of the instance document;
* `gcp`: the instance attributes whose value could be read. -/
structure Endpoints where
  aws : Option (List (List (List (String × String))))
  azure : Option String
  gcp : Option (List (String × String))

/-- The map `CloudMetaFetch` returns: the entry `provider`, and the entry
`tags` when a provider answered. -/
structure CloudMeta where
  provider : String
  tags : Option (List (String × String))
  deriving DecidableEq, Repr

/-- The loop of the Azure branch over the entries of the tags string:
`split := strings.Split(tag, ":")`, then `tags[split[0]] = split[1]`. -/
def azureTags : List String → List (String × String) → Except Panic (List (String × String))
  | [], tags => .ok tags
  | tag :: rest, tags =>
    match (Split tag ':')[0]?, (Split tag ':')[1]? with
    | some k, some v => azureTags rest (putTag tags k v)
    | _, _ => .error .indexOutOfRange

/-- `CloudMetaFetch`. -/
def CloudMetaFetch (e : Endpoints) : Except Panic CloudMeta :=
  match e.aws with
  | some reservations =>
    match reservations[0]? with
    | none => .error .indexOutOfRange
    | some instances =>
      match instances[0]? with
      | none => .error .indexOutOfRange
      | some awsTags =>
        .ok { provider := "aws", tags := some (awsTags.foldl (fun t p => putTag t p.1 p.2) []) }
  | none =>
    match e.azure with
    | some tagString =>
      match azureTags (Split tagString ';') [] with
      | .error p => .error p
      | .ok tags => .ok { provider := "azure", tags := some tags }
    | none =>
      match e.gcp with
      | some attrs =>
        .ok { provider := "gcp", tags := some (attrs.foldl (fun t p => putTag t p.1 p.2) []) }
      | none => .ok { provider := "unknown", tags := none }

end config

namespace zpm

/-! ## Manager -/

/-- The struct `zps.Requirement` as the manager sees it. Modelled from the
spec: the package `zps` is not part of the sources at hand; a requirement is a
name with an operator and a version. -/
structure Requirement where
  Name : String
  Operator : String
  Version : String
  deriving DecidableEq, Repr

/-- The struct `zps.Pool`: the method `WhatProvides`, as a field. -/
structure Pool where
  WhatProvides : Requirement → List Pkg

/-- An entry of a `zps.Request`: `request.Install(req)` or
`request.Remove(req)`. -/
inductive Job where
  | install (req : Requirement)
  | remove (req : Requirement)
  deriving DecidableEq, Repr

/-- A repo of the configuration: its name and its fetch uri. -/
structure Repo where
  Name : String
  FetchUri : String
  deriving DecidableEq, Repr

/-- The errors the manager returns: those of a collaborator, and those it
makes itself with `errors.New`. -/
inductive ManagerError where
  | collaborator (e : Error)
  | new (msg : String)
  deriving DecidableEq, Repr

/-- The runs of the solver, of a fetcher and of a transaction that the manager
starts. -/
inductive ManagerCall where
  | solve (request : List Job)
  | fetch (pkg : Pkg)
  | realize
  | refresh (repo : Repo)
  deriving DecidableEq, Repr

/-- What the manager is run against: the configuration and the collaborators
that are not part of the sources at hand. -/
structure ManagerEnv where
  /-- The field `config.Repos`. -/
  Repos : List Repo
  /-- The method `Manager.pool`, which reads the database and the cache. -/
  pool : Except Error Pool
  /-- The function `zps.NewRequirementFromSimpleString`. -/
  NewRequirementFromSimpleString : String → Except Error Requirement
  /-- The call `zps.NewSolver(pool, policy).Solve(request)`. -/
  Solve : Pool → List Job → Except Error Solution
  /-- The call `fetcher.Get(uri, cache).Fetch(pkg)`. -/
  Fetch : Pkg → Option Error
  /-- The call `NewTransaction(...).Realize(solution)`. -/
  Realize : Solution → Option Error
  /-- The call `fetcher.Get(r.Fetch.Uri, cache).Refresh()`. -/
  Refresh : Repo → Option Error

/-- The loop over `args` in `Manager.Install` and `Manager.Plan`: the request
it builds, or the error it returns. `add` is `request.Install` or
`request.Remove`. -/
def Manager.request (env : ManagerEnv) (pool : Pool) (add : Requirement → Job) :
    List String → Except ManagerError (List Job)
  | [] => .ok []
  | arg :: rest =>
    match env.NewRequirementFromSimpleString arg with
    | .error e => .error (.collaborator e)
    | .ok req =>
      if (pool.WhatProvides req).length = 0 then
        .error (.new ("No candidates found for " ++ arg))
      else
        match Manager.request env pool add rest with
        | .error e => .error e
        | .ok jobs => .ok (add req :: jobs)

/-- The loop over the operations of the solution in `Manager.Install`: the
fetches it starts and the error it returns, if any. -/
def Manager.fetchAll (env : ManagerEnv) : List Operation → List ManagerCall × Option Error
  | [] => ([], none)
  | op :: rest =>
    if op.Operation = "install" then
      match env.Fetch op.Package with
      | some e => ([.fetch op.Package], some e)
      | none =>
        ((ManagerCall.fetch op.Package) :: (Manager.fetchAll env rest).1,
          (Manager.fetchAll env rest).2)
    else Manager.fetchAll env rest

/-- `Manager.Install`: the runs it starts and the error it returns. -/
def Manager.Install (env : ManagerEnv) (args : List String) :
    List ManagerCall × Option ManagerError :=
  match env.pool with
  | .error e => ([], some (.collaborator e))
  | .ok pool =>
    match Manager.request env pool Job.install args with
    | .error e => ([], some e)
    | .ok request =>
      match env.Solve pool request with
      | .error e => ([.solve request], some (.collaborator e))
      | .ok solution =>
        match Manager.fetchAll env solution.Operations with
        | (calls, some e) => (.solve request :: calls, some (.collaborator e))
        | (calls, none) =>
          (.solve request :: calls ++ [.realize],
            (env.Realize solution).map ManagerError.collaborator)

/-- `Manager.Plan`: the runs it starts and the solution or the error it
returns. -/
def Manager.Plan (env : ManagerEnv) (action : String) (args : List String) :
    List ManagerCall × Except ManagerError Solution :=
  if action ≠ "install" ∧ action ≠ "remove" then
    ([], .error (.new "action must be either: install or remove"))
  else
    match env.pool with
    | .error e => ([], .error (.collaborator e))
    | .ok pool =>
      match Manager.request env pool
          (if action = "install" then Job.install else Job.remove) args with
      | .error e => ([], .error e)
      | .ok request =>
        match env.Solve pool request with
        | .error e => ([.solve request], .error (.collaborator e))
        | .ok solution => ([.solve request], .ok solution)

/-- `Manager.Refresh`: the refreshes it starts and the error it returns. The
`return err` stands in the body of the loop. -/
def Manager.Refresh (env : ManagerEnv) : List ManagerCall × Option Error :=
  match env.Repos with
  | [] => ([], none)
  | r :: _ => ([.refresh r], env.Refresh r)

/-! ## More examples -/

/-- A package `D` with the directory `/a` and the file `/a/b` in it. -/
def dirFileManifest : action.Manifest :=
  ((({ action.NewManifest with Zpkg := some ⟨"D", "1.0.0", "", "", "", "", ""⟩ }).Add
    (.file ⟨"/a/b", "root", "root", "0644", "", 0⟩)).Add
    (.dir ⟨"/a", "root", "root", "0755"⟩))

/-- A transaction on the empty state with the reader of `D` loaded. -/
def loadedD : Transaction :=
  { NewTransaction "/" emptyState "tx1" 7 with readers := [("D", ⟨dirFileManifest⟩)] }

/-- A transaction on a state in which `D` is installed. -/
def installedD : Transaction :=
  NewTransaction "/"
    { Packages := [("D", dirFileManifest)],
      Objects := [⟨"/a", "D", "Dir"⟩, ⟨"/a/b", "D", "File"⟩],
      Transactions := [] } "tx2" 9

/-- The environment of the examples, except that `Packages.Put` fails for
`Q`. -/
def failingEnv : Env :=
  { exampleEnv with
    fails := fun c =>
      match c with
      | .packagesPut name _ => if name = "Q" then some (.external "disk full") else none
      | _ => none }

/-- A manager whose pool provides `A` only, whose arguments parse unless they
start with `!`, and with two repos that refresh without error. -/
def exampleManager : ManagerEnv :=
  { Repos := [⟨"main", "file:///repo/main"⟩, ⟨"extra", "file:///repo/extra"⟩],
    pool := .ok ⟨fun req => if req.Name = "A" then [pkgOf "A" "1.1.0"] else []⟩,
    NewRequirementFromSimpleString := fun arg =>
      if arg.data.head? = some '!' then .error (.external "requirement does not parse")
      else .ok ⟨arg, "ANY", ""⟩,
    Solve := fun _ _ => .ok installPQ,
    Fetch := fun _ => none,
    Realize := fun _ => none,
    Refresh := fun _ => none }

/-! ## Reading the log of calls -/

/-- The calls made in a run that ended with `out`: either all of them returned
no error, or all but the last did and the run ended with the error of the
last. -/
def StopsAtError (env : Env) (calls : List Call) (out : Outcome) : Prop :=
  (∀ c ∈ calls, env.fails c = none) ∨
  ∃ pre c e, calls = pre ++ [c] ∧ (∀ x ∈ pre, env.fails x = none) ∧
    env.fails c = some e ∧ out = .failed e

/-- The run from `t` to `r` extends the log by calls that stop at the first
error. -/
def Tracks (env : Env) (t : Transaction) (r : Transaction × Outcome) : Prop :=
  ∃ calls, r.1.log = t.log ++ calls ∧ StopsAtError env calls r.2

/-- The run from `t` to `r` appends to `Transactions` only entries of a
`remove` paired with an install: none when `operation` is not `"install"`. -/
def LogsOnlyPairedRemove (operation : String) (t : Transaction)
    (r : Transaction × Outcome) : Prop :=
  ∃ added, r.1.state.Transactions = t.state.Transactions ++ added ∧
    ∀ x ∈ added, x.Operation = "remove" ∧ operation = "install"

end zpm

/-! # Properties of the manifest -/

namespace action

theorem sortActions_perm (l : List Action) : (sortActions l).Perm l :=
  List.perm_insertionSort keyLE l

theorem sortActions_sorted (l : List Action) : List.Sorted keyLE (sortActions l) :=
  List.sorted_insertionSort keyLE l

theorem string_data_inj {a b : String} (h : a.data = b.data) : a = b := by
  cases a; cases b; simp_all

theorem firstConflict_none_of_nodup :
    ∀ l : List Action, (l.map Action.Key).Nodup → firstConflict l = none
  | [], _ => rfl
  | [_], _ => rfl
  | prev :: cur :: rest, h => by
    have h1 : cur.Key ≠ prev.Key := by
      intro e
      simp [e] at h
    have h2 : ((cur :: rest).map Action.Key).Nodup := by
      simp only [List.map_cons, List.nodup_cons] at h ⊢
      exact h.2
    simp [firstConflict, h1, firstConflict_none_of_nodup (cur :: rest) h2]

theorem nodup_of_firstConflict_none :
    ∀ l : List Action, List.Sorted keyLE l → firstConflict l = none →
      (l.map Action.Key).Nodup
  | [], _, _ => by simp
  | [_], _, _ => by simp
  | prev :: cur :: rest, hs, h => by
    have hne : cur.Key ≠ prev.Key := by
      intro e
      simp [firstConflict, e] at h
    have hrest : firstConflict (cur :: rest) = none := by
      simpa [firstConflict, hne] using h
    have hs2 : List.Sorted keyLE (cur :: rest) := (List.sorted_cons.1 hs).2
    have ih := nodup_of_firstConflict_none (cur :: rest) hs2 hrest
    have hle : ∀ b ∈ cur :: rest, keyLE prev b := (List.sorted_cons.1 hs).1
    have hle2 : ∀ b ∈ cur :: rest, keyLE cur b := by
      intro b hb
      rcases List.mem_cons.1 hb with rfl | hb
      · exact le_refl _
      · exact (List.sorted_cons.1 hs2).1 b hb
    have hlt : prev.Key.data < cur.Key.data := by
      have h1 : keyLE prev cur := hle cur (List.mem_cons_self _ _)
      rcases lt_or_eq_of_le h1 with h2 | h2
      · exact h2
      · exact absurd (string_data_inj h2).symm hne
    simp only [List.map_cons, List.nodup_cons] at ih ⊢
    refine ⟨?_, ih⟩
    intro hmem
    rcases List.mem_cons.1 hmem with e | hmem
    · exact hne e.symm
    · obtain ⟨b, hb, e⟩ := List.mem_map.1 hmem
      have h3 : keyLE cur b := hle2 b (List.mem_cons_of_mem _ hb)
      have h4 : cur.Key.data ≤ prev.Key.data := by
        unfold keyLE at h3; rw [e] at h3; exact h3
      exact absurd hlt (not_lt.2 h4)


theorem split_at_dot : ∀ (l1 l2 r1 r2 : List Char), '.' ∉ l1 → '.' ∉ l2 →
    l1 ++ '.' :: r1 = l2 ++ '.' :: r2 → l1 = l2 ∧ r1 = r2
  | [], [], _, _, _, _, h => by simpa using h
  | [], c :: l2, _, _, _, h2, h => by
    simp only [List.nil_append, List.cons_append, List.cons.injEq] at h
    exact absurd (h.1 ▸ List.mem_cons_self _ _) h2
  | c :: l1, [], _, _, h1, _, h => by
    simp only [List.nil_append, List.cons_append, List.cons.injEq] at h
    exact absurd (h.1 ▸ List.mem_cons_self _ _) h1
  | c :: l1, d :: l2, r1, r2, h1, h2, h => by
    simp only [List.cons_append, List.cons.injEq] at h
    have ih := split_at_dot l1 l2 r1 r2
      (fun hm => h1 (List.mem_cons_of_mem _ hm)) (fun hm => h2 (List.mem_cons_of_mem _ hm)) h.2
    exact ⟨by rw [h.1, ih.1], ih.2⟩

theorem Action.type_no_dot (a : Action) : '.' ∉ a.Type.data := by
  cases a <;> simp [Action.Type, Dir.Type]

theorem Action.Id_inj {a b : Action} (h : a.Id = b.Id) : a.Type = b.Type ∧ a.Key = b.Key := by
  have hd := congrArg String.data h
  simp only [Action.Id, String.data_append] at hd
  have hd2 : a.Type.data ++ '.' :: a.Key.data = b.Type.data ++ '.' :: b.Key.data := by
    simpa using hd
  have := split_at_dot _ _ _ _ a.type_no_dot b.type_no_dot hd2
  exact ⟨string_data_inj this.1, string_data_inj this.2⟩

theorem Action.Id_file (f : File) : (Action.file f).Id = "File." ++ f.Path := by
  apply string_data_inj
  simp [Action.Id, Action.Type, Action.Key, String.data_append]

theorem IndexMap.get?_erase_ne (ix : IndexMap) (k k1 : String) (h : k ≠ k1) :
    IndexMap.get? (ix.erase k) k1 = IndexMap.get? ix k1 := by
  induction ix with
  | nil => rfl
  | cons p rest ih =>
    obtain ⟨q, v⟩ := p
    by_cases hq : q = k
    · subst hq
      simp [IndexMap.erase, IndexMap.get?, h, ih]
    · simp [IndexMap.erase, IndexMap.get?, hq, ih]

theorem IndexMap.get?_put (ix : IndexMap) (k k1 : String) (v : Nat) :
    (ix.put k v).get? k1 = if k = k1 then some v else ix.get? k1 := by
  by_cases h : k = k1
  · simp [IndexMap.put, IndexMap.get?, h]
  · simp [IndexMap.put, IndexMap.get?, h, IndexMap.get?_erase_ne ix k k1 h]

theorem indexLoop_get? : ∀ (ids : List String) (start : Nat) (ix : IndexMap) (k : String) (i : Nat),
    (indexLoop ids start ix).get? k = some i →
      ix.get? k = some i ∨ ∃ j, ids[j]? = some k ∧ i = start + j
  | [], _, _, _, _, h => Or.inl h
  | id :: rest, start, ix, k, i, h => by
    rcases indexLoop_get? rest (start + 1) (ix.put id start) k i h with h1 | ⟨j, hj, e⟩
    · rw [IndexMap.get?_put] at h1
      by_cases hk : id = k
      · rw [if_pos hk] at h1
        right
        exact ⟨0, by simp [hk], by simpa using (Option.some.inj h1).symm⟩
      · rw [if_neg hk] at h1
        exact Or.inl h1
    · right
      exact ⟨j + 1, by simpa using hj, by omega⟩

theorem indexLoop_isSome : ∀ (ids : List String) (start : Nat) (ix : IndexMap) (k : String),
    ((ix.get? k).isSome ∨ k ∈ ids) → ((indexLoop ids start ix).get? k).isSome
  | [], _, _, _, h => by simpa [indexLoop] using h
  | id :: rest, start, ix, k, h => by
    apply indexLoop_isSome rest (start + 1) (ix.put id start) k
    rw [IndexMap.get?_put]
    by_cases hk : id = k
    · simp [hk]
    · rcases h with h | h
      · simp [hk, h]
      · right
        rcases List.mem_cons.1 h with e | h
        · exact absurd e.symm hk
        · exact h


theorem Manifest.Section_single (m : Manifest) (T : String) :
    m.Section [T] = m.sectionItems T := by
  simp [Manifest.Section]

theorem Manifest.Section_fs (m : Manifest) :
    m.Section ["Dir", "File", "SymLink"]
      = m.Dirs.map Action.dir ++ m.Files.map Action.file ++ m.SymLinks.map Action.symLink := by
  simp [Manifest.Section, Manifest.sectionItems]

theorem Manifest.mem_sectionItems_type {m : Manifest} {T : String} {a : Action}
    (h : a ∈ m.sectionItems T) : a.Type = T := by
  unfold Manifest.sectionItems at h
  split_ifs at h <;> simp at h <;> (try obtain ⟨x, _, rfl⟩ := h) <;>
    simp_all [Action.Type, Dir.Type]


theorem Manifest.sectionItems_nil_of_index_nil {m : Manifest} (hc : IndexCovers m)
    (h : m.index = []) (T : String) : m.sectionItems T = [] := by
  rcases hs : m.sectionItems T with _ | ⟨a, rest⟩
  · rfl
  · have := hc T a (by rw [hs]; exact List.mem_cons_self _ _)
    rw [h] at this
    simp [IndexMap.get?] at this

theorem Manifest.Index_eq_self {m : Manifest} (hc : IndexCovers m) (h : m.index = []) :
    m.Index = m := by
  have h1 := Manifest.sectionItems_nil_of_index_nil hc h "Tag"
  have h2 := Manifest.sectionItems_nil_of_index_nil hc h "Requirement"
  have h3 := Manifest.sectionItems_nil_of_index_nil hc h "Dir"
  have h4 := Manifest.sectionItems_nil_of_index_nil hc h "File"
  have h5 := Manifest.sectionItems_nil_of_index_nil hc h "SymLink"
  have h6 := Manifest.sectionItems_nil_of_index_nil hc h "Template"
  have h7 := Manifest.sectionItems_nil_of_index_nil hc h "Service"
  have h8 := Manifest.sectionItems_nil_of_index_nil hc h "Signature"
  simp [Manifest.sectionItems] at h1 h2 h3 h4 h5 h6 h7 h8
  cases m
  simp_all [Manifest.Index, indexLoop]

theorem Manifest.Add_pre {m : Manifest} (hc : IndexCovers m) :
    (if m.index.length = 0 then m.Index else m) = m := by
  split_ifs with h
  · exact Manifest.Index_eq_self hc (List.length_eq_zero.1 h)
  · rfl

/-- What `Add` does to the sections and the index when the id is present. -/
theorem Manifest.Add_present {m : Manifest} (hc : IndexCovers m) (a : Action)
    (he : m.Exists a = true) :
    (m.Add a).index = m.index ∧ (m.Add a).Zpkg = m.Zpkg ∧
    ∀ T, (m.Add a).sectionItems T =
      if T = a.Type then (m.sectionItems T).set (m.index.at a.Id) a else m.sectionItems T := by
  have hp := Manifest.Add_pre hc
  cases a <;> simp only [Manifest.Add, hp, he, if_true, Action.Type, Dir.Type] <;>
    refine ⟨trivial, trivial, ?_⟩ <;> intro T <;> split_ifs with h <;>
    first
      | (subst h; simp [Manifest.sectionItems, List.map_set])
      | simp [Manifest.sectionItems, h]

/-- What `Add` does to the sections and the index when the id is absent. -/
theorem Manifest.Add_absent {m : Manifest} (hc : IndexCovers m) (a : Action)
    (hz : a.Type ≠ "Zpkg") (he : m.Exists a = false) :
    (m.Add a).index = m.index.put a.Id (m.sectionItems a.Type).length ∧
    (m.Add a).Zpkg = m.Zpkg ∧
    ∀ T, (m.Add a).sectionItems T =
      if T = a.Type then m.sectionItems T ++ [a] else m.sectionItems T := by
  have hp := Manifest.Add_pre hc
  cases a <;> simp only [Manifest.Add, hp, he, Bool.false_eq_true, if_false, Action.Type, Dir.Type] at hz ⊢ <;>
    first
      | exact absurd rfl hz
      | (refine ⟨by simp [Manifest.sectionItems], by simp, ?_⟩
         intro T
         split_ifs with h
         · subst h; simp [Manifest.sectionItems]
         · simp [Manifest.sectionItems, h])


theorem IndexExact.covers {m : Manifest} (h : IndexExact m) : IndexCovers m := by
  intro T a ha
  obtain ⟨i, hi⟩ := List.mem_iff_getElem?.1 ha
  rw [h T i a hi]
  rfl

theorem Manifest.Add_zpkg {m : Manifest} (hc : IndexCovers m) (a : Action)
    (hz : a.Type = "Zpkg") : m.Add a = m := by
  have hp := Manifest.Add_pre hc
  cases a <;> simp [Action.Type, Dir.Type] at hz
  simp only [Manifest.Add, hp]

theorem Manifest.Exists_iff {m : Manifest} {a : Action} :
    m.Exists a = true ↔ ∃ i, m.index.get? a.Id = some i := by
  simp [Manifest.Exists, Option.isSome_iff_exists]

theorem IndexMap.at_eq {ix : IndexMap} {k : String} {i : Nat} (h : ix.get? k = some i) :
    ix.at k = i := by
  simp [IndexMap.at, h]

/-- With a sound index, an id that is present sits at the indexed position of
the section of its type. -/
theorem IndexSound.lookup {m : Manifest} (hs : IndexSound m) {a : Action} {i : Nat}
    (h : m.index.get? a.Id = some i) :
    ∃ c, (m.sectionItems a.Type)[i]? = some c ∧ c.Id = a.Id := by
  obtain ⟨c, hc, hid⟩ := hs a.Id i h
  rw [(Action.Id_inj hid).1] at hc
  exact ⟨c, hc, hid⟩

theorem indexSound_add {m : Manifest} (hs : IndexSound m) (hc : IndexCovers m) (a : Action) :
    IndexSound (m.Add a) := by
  by_cases hz : a.Type = "Zpkg"
  · rw [Manifest.Add_zpkg hc a hz]; exact hs
  by_cases he : m.Exists a = true
  · obtain ⟨hix, _, hsec⟩ := Manifest.Add_present hc a he
    obtain ⟨i0, hi0⟩ := Manifest.Exists_iff.1 he
    obtain ⟨c, hcpos, hcid⟩ := hs.lookup hi0
    intro id i h
    rw [hix] at h
    obtain ⟨b, hb, hbid⟩ := hs id i h
    rw [IndexMap.at_eq hi0] at hsec
    by_cases ht : b.Type = a.Type
    · by_cases hi : i = i0
      · subst hi
        rw [ht, hcpos] at hb
        have hcb : c = b := Option.some.inj hb
        subst hcb
        refine ⟨a, ?_, hcid.symm.trans hbid⟩
        rw [hsec, if_pos rfl]
        have hlt : i < (m.sectionItems a.Type).length :=
          (List.getElem?_eq_some.1 hcpos).1
        exact List.getElem?_set_self hlt
      · refine ⟨b, ?_, hbid⟩
        rw [hsec, if_pos ht, List.getElem?_set_ne (Ne.symm hi)]
        exact hb
    · refine ⟨b, ?_, hbid⟩
      rw [hsec, if_neg ht]
      exact hb
  · have he2 : m.Exists a = false := by simpa using he
    obtain ⟨hix, _, hsec⟩ := Manifest.Add_absent hc a hz he2
    intro id i h
    rw [hix, IndexMap.get?_put] at h
    by_cases hk : a.Id = id
    · rw [if_pos hk] at h
      have hi : (m.sectionItems a.Type).length = i := Option.some.inj h
      refine ⟨a, ?_, hk⟩
      rw [hsec, if_pos rfl, ← hi]
      exact List.getElem?_concat_length _ _
    · rw [if_neg hk] at h
      obtain ⟨b, hb, hbid⟩ := hs id i h
      refine ⟨b, ?_, hbid⟩
      rw [hsec]
      split_ifs with ht
      · rw [List.getElem?_append_left (List.getElem?_eq_some.1 hb).1]
        exact hb
      · exact hb

theorem indexCovers_add {m : Manifest} (hc : IndexCovers m) (a : Action) :
    IndexCovers (m.Add a) := by
  by_cases hz : a.Type = "Zpkg"
  · rw [Manifest.Add_zpkg hc a hz]; exact hc
  by_cases he : m.Exists a = true
  · obtain ⟨hix, _, hsec⟩ := Manifest.Add_present hc a he
    intro T b hb
    rw [hix]
    rw [hsec] at hb
    split_ifs at hb with ht
    · rcases List.mem_or_eq_of_mem_set hb with h | h
      · exact hc T b h
      · rw [h]; exact he
    · exact hc T b hb
  · have he2 : m.Exists a = false := by simpa using he
    obtain ⟨hix, _, hsec⟩ := Manifest.Add_absent hc a hz he2
    intro T b hb
    rw [hix, IndexMap.get?_put]
    by_cases hk : a.Id = b.Id
    · simp [hk]
    · rw [if_neg hk]
      rw [hsec] at hb
      split_ifs at hb with ht
      · rcases List.mem_append.1 hb with h | h
        · exact hc T b h
        · exact absurd (by rw [List.mem_singleton.1 h]) hk
      · exact hc T b hb

theorem indexExact_add {m : Manifest} (hx : IndexExact m) (a : Action) :
    IndexExact (m.Add a) := by
  have hc := hx.covers
  by_cases hz : a.Type = "Zpkg"
  · rw [Manifest.Add_zpkg hc a hz]; exact hx
  by_cases he : m.Exists a = true
  · obtain ⟨hix, _, hsec⟩ := Manifest.Add_present hc a he
    obtain ⟨i0, hi0⟩ := Manifest.Exists_iff.1 he
    rw [IndexMap.at_eq hi0] at hsec
    intro T i b hb
    rw [hix]
    rw [hsec] at hb
    split_ifs at hb with ht
    · by_cases hi : i = i0
      · subst hi
        rw [List.getElem?_set] at hb
        simp only [if_true] at hb
        split_ifs at hb with hlt
        rw [← Option.some.inj hb]; exact hi0
      · rw [List.getElem?_set_ne (Ne.symm hi)] at hb
        exact hx T i b hb
    · exact hx T i b hb
  · have he2 : m.Exists a = false := by simpa using he
    obtain ⟨hix, _, hsec⟩ := Manifest.Add_absent hc a hz he2
    have hnone : m.index.get? a.Id = none := by
      simpa [Manifest.Exists] using he2
    have hold : ∀ T i b, (m.sectionItems T)[i]? = some b →
        (m.index.put a.Id (m.sectionItems a.Type).length).get? b.Id = some i := by
      intro T i b hb
      have h1 := hx T i b hb
      rw [IndexMap.get?_put]
      have hk : a.Id ≠ b.Id := by
        intro e
        rw [e, h1] at hnone
        exact absurd hnone (by simp)
      rw [if_neg hk]
      exact h1
    intro T i b hb
    rw [hix]
    rw [hsec] at hb
    split_ifs at hb with ht
    · subst ht
      by_cases hlt : i < (m.sectionItems a.Type).length
      · rw [List.getElem?_append_left hlt] at hb
        exact hold _ i b hb
      · have hlen := (List.getElem?_eq_some.1 hb).1
        simp only [List.length_append, List.length_singleton] at hlen
        have hi : i = (m.sectionItems a.Type).length := by omega
        subst hi
        rw [List.getElem?_concat_length] at hb
        rw [← Option.some.inj hb, IndexMap.get?_put, if_pos rfl]
    · exact hold T i b hb


theorem indexLoop_sound (P : String → Nat → Prop) :
    ∀ (ids : List String) (ix : IndexMap),
      (∀ k i, ix.get? k = some i → P k i) → (∀ j k, ids[j]? = some k → P k j) →
      ∀ k i, (indexLoop ids 0 ix).get? k = some i → P k i := by
  intro ids ix h0 h1 k i h
  rcases indexLoop_get? ids 0 ix k i h with h2 | ⟨j, hj, e⟩
  · exact h0 k i h2
  · have : i = j := by omega
    subst this
    exact h1 i k hj

theorem Manifest.sectionItems_Index (m : Manifest) (T : String) :
    m.Index.sectionItems T = m.sectionItems T := by
  simp [Manifest.Index, Manifest.sectionItems]

theorem indexSound_Index {m : Manifest} (hs : IndexSound m) : IndexSound m.Index := by
  intro id i h
  simp only [Manifest.sectionItems_Index]
  revert id i
  simp only [Manifest.Index]
  refine indexLoop_sound _ _ _ (indexLoop_sound _ _ _ (indexLoop_sound _ _ _
    (indexLoop_sound _ _ _ (indexLoop_sound _ _ _ (indexLoop_sound _ _ _
    (indexLoop_sound _ _ _ (indexLoop_sound _ _ _ hs ?_) ?_) ?_) ?_) ?_) ?_) ?_) ?_ <;>
  · intro j k hj
    simp only [List.getElem?_map, Option.map_eq_some'] at hj
    obtain ⟨x, hx, rfl⟩ := hj
    refine ⟨_, ?_, rfl⟩
    simp [Manifest.sectionItems, Action.Type, Dir.Type, hx]

theorem indexCovers_Index (m : Manifest) : IndexCovers m.Index := by
  intro T a ha
  rw [Manifest.sectionItems_Index] at ha
  unfold Manifest.sectionItems at ha
  simp only [Manifest.Index]
  split_ifs at ha <;> first
    | exact absurd ha (List.not_mem_nil _)
    | (obtain ⟨x, hx, rfl⟩ := List.mem_map.1 ha
       repeat first
         | (apply indexLoop_isSome; right; exact List.mem_map.2 ⟨x, hx, rfl⟩)
         | (apply indexLoop_isSome; left))

theorem indexSound_new : IndexSound NewManifest := by
  intro id i h
  simp [NewManifest, IndexMap.get?] at h

theorem indexExact_new : IndexExact NewManifest := by
  intro T i a h
  simp [NewManifest, Manifest.sectionItems] at h

theorem Built.sound_exact {m : Manifest} (h : Built m) : IndexSound m ∧ IndexExact m := by
  induction h with
  | new => exact ⟨indexSound_new, indexExact_new⟩
  | setZpkg z _ ih => exact ih
  | add a _ ih => exact ⟨indexSound_add ih.1 ih.2.covers a, indexExact_add ih.2 a⟩

theorem Produced.sound_covers {m : Manifest} (h : Produced m) : IndexSound m ∧ IndexCovers m := by
  cases h with
  | built hb => exact ⟨hb.sound_exact.1, hb.sound_exact.2.covers⟩
  | load unmarshal manifest hl =>
    unfold Manifest.Load at hl
    split at hl
    · simp at hl
    · have hm := (Prod.mk.inj hl).1
      subst hm
      refine ⟨indexSound_Index ?_, indexCovers_Index _⟩
      intro id i h
      simp [NewManifest, IndexMap.get?] at h


theorem selfReference_requirements (z : Zpkg) : ∀ reqs : List Requirement,
    selfReference (some z) (reqs.map Action.requirement)
      = .ok (decide (∃ r ∈ reqs, r.Name = z.Name))
  | [] => by simp [selfReference]
  | r :: rest => by
    by_cases h : r.Name = z.Name
    · simp [selfReference, h]
    · simp [selfReference, h, selfReference_requirements z rest]

theorem selfReference_nil_zpkg : ∀ reqs : List Requirement,
    selfReference none (reqs.map Action.requirement)
      = if reqs = [] then .ok false else .error .nilPointerDereference
  | [] => by simp [selfReference]
  | r :: rest => by simp [selfReference]

theorem missingSource_templates (ix : IndexMap) : ∀ tpls : List Template,
    missingSource ix (tpls.map Action.template)
      = .ok (decide (∃ t ∈ tpls, (ix.get? ("File." ++ t.Source)).isSome = false))
  | [] => by simp [missingSource]
  | t :: rest => by
    cases h : ix.get? ("File." ++ t.Source) with
    | some v => simp [missingSource, h, missingSource_templates ix rest]
    | none => simp [missingSource, h]

/-- `Validate` on a manifest with a `Zpkg`, as a case distinction. -/
theorem Manifest.Validate_some {m : Manifest} {z : action.Zpkg} (hz : m.Zpkg = some z) :
    m.Validate.2 =
      if ∃ r ∈ m.Requirements, r.Name = z.Name then .ok (some .selfRequirement)
      else match firstConflict (sortActions (m.Section ["Dir", "File", "SymLink"])) with
        | some (prev, cur) => .ok (some (.conflict prev cur))
        | none =>
          if ∃ t ∈ m.Templates, (m.index.get? ("File." ++ t.Source)).isSome = false then
            .ok (some .templateSource)
          else .ok none := by
  simp only [Manifest.Validate, Manifest.Section_single, hz]
  have h1 : m.sectionItems "Requirement" = m.Requirements.map Action.requirement := by
    simp [Manifest.sectionItems]
  have h2 : m.sectionItems "Template" = m.Templates.map Action.template := by
    simp [Manifest.sectionItems]
  rw [h1, h2, selfReference_requirements, missingSource_templates]
  by_cases hr : ∃ r ∈ m.Requirements, r.Name = z.Name
  · simp only [hr, decide_True, if_true]
    rfl
  · simp only [hr, decide_False, if_false]
    cases hf : firstConflict (sortActions (m.Section ["Dir", "File", "SymLink"])) with
    | some p => rfl
    | none =>
      by_cases ht : ∃ t ∈ m.Templates, (m.index.get? ("File." ++ t.Source)).isSome = false
      · simp only [ht, decide_True, if_true]
        rfl
      · simp only [ht, decide_False, if_false]
        rfl

/-- `Validate` on a manifest without a `Zpkg`. -/
theorem Manifest.Validate_none {m : Manifest} (hz : m.Zpkg = none) :
    m.Validate.2 =
      if m.Requirements = [] then
        match firstConflict (sortActions (m.Section ["Dir", "File", "SymLink"])) with
        | some (prev, cur) => .ok (some (.conflict prev cur))
        | none =>
          if ∃ t ∈ m.Templates, (m.index.get? ("File." ++ t.Source)).isSome = false then
            .ok (some .templateSource)
          else .ok none
      else .error .nilPointerDereference := by
  simp only [Manifest.Validate, Manifest.Section_single, hz]
  have h1 : m.sectionItems "Requirement" = m.Requirements.map Action.requirement := by
    simp [Manifest.sectionItems]
  have h2 : m.sectionItems "Template" = m.Templates.map Action.template := by
    simp [Manifest.sectionItems]
  rw [h1, h2, selfReference_nil_zpkg, missingSource_templates]
  by_cases hr : m.Requirements = []
  · simp only [hr, if_true]
    cases hf : firstConflict (sortActions (m.Section ["Dir", "File", "SymLink"])) with
    | some p => rfl
    | none =>
      by_cases ht : ∃ t ∈ m.Templates, (m.index.get? ("File." ++ t.Source)).isSome = false
      · simp only [ht, decide_True, if_true]
        rfl
      · simp only [ht, decide_False, if_false]
        rfl
  · simp only [hr, if_false]
    rfl


theorem Manifest.Validate_ok_parts {m : Manifest} (h : m.Validate.2 = .ok none) :
    firstConflict (sortActions (m.Section ["Dir", "File", "SymLink"])) = none ∧
    (∀ t ∈ m.Templates, (m.index.get? ("File." ++ t.Source)).isSome = true) ∧
    (∀ z, m.Zpkg = some z → ∀ r ∈ m.Requirements, r.Name ≠ z.Name) := by
  have key : ∀ (c : Option (Action × Action)),
      (match c with
        | some (prev, cur) => (.ok (some (.conflict prev cur)) : Except Panic (Option ValidateError))
        | none =>
          if ∃ t ∈ m.Templates, (m.index.get? ("File." ++ t.Source)).isSome = false then
            .ok (some .templateSource)
          else .ok none) = .ok none →
      c = none ∧ ∀ t ∈ m.Templates, (m.index.get? ("File." ++ t.Source)).isSome = true := by
    intro c hc
    cases c with
    | some p => simp at hc
    | none =>
      refine ⟨rfl, ?_⟩
      simp only at hc
      split_ifs at hc with ht
      · simp at hc
      · intro t htm
        by_contra hn
        exact ht ⟨t, htm, by simpa using hn⟩
  cases hz : m.Zpkg with
  | none =>
    rw [Manifest.Validate_none hz] at h
    by_cases hr : m.Requirements = []
    · rw [if_pos hr] at h
      obtain ⟨h1, h2⟩ := key _ h
      exact ⟨h1, h2, fun z hz2 => by simp at hz2⟩
    · rw [if_neg hr] at h
      cases h
  | some z =>
    rw [Manifest.Validate_some hz] at h
    by_cases hr : ∃ r ∈ m.Requirements, r.Name = z.Name
    · rw [if_pos hr] at h
      cases h
    · rw [if_neg hr] at h
      obtain ⟨h1, h2⟩ := key _ h
      refine ⟨h1, h2, ?_⟩
      intro z2 hz2 r hrm e
      have : z2 = z := by simpa using hz2.symm
      subst this
      exact hr ⟨r, hrm, e⟩

/-- An index entry for `"File." + path` in a sound index is a stored `File`
with that path. -/
theorem IndexSound.file_of_entry {m : Manifest} (hs : IndexSound m) {path : String}
    (h : (m.index.get? ("File." ++ path)).isSome = true) : ∃ f ∈ m.Files, f.Path = path := by
  obtain ⟨i, hi⟩ := Option.isSome_iff_exists.1 h
  obtain ⟨a, ha, hid⟩ := hs _ i hi
  have h1 : a.Id = (Action.file ⟨path, "", "", "", "", 0⟩).Id := by
    rw [hid, Action.Id_file]
  obtain ⟨ht, hk⟩ := Action.Id_inj h1
  have hmem : a ∈ m.sectionItems a.Type := List.mem_iff_getElem?.2 ⟨i, ha⟩
  rw [ht] at hmem
  simp only [Action.Type, Manifest.sectionItems] at hmem
  simp only [String.reduceEq, if_false, if_true, List.mem_map] at hmem
  obtain ⟨f, hf, rfl⟩ := hmem
  exact ⟨f, hf, hk⟩

/-- With an index that covers the manifest, the path of a stored `File` has an
entry under `"File." + path`. -/
theorem IndexCovers.entry_of_file {m : Manifest} (hc : IndexCovers m) {f : File}
    (hf : f ∈ m.Files) : (m.index.get? ("File." ++ f.Path)).isSome = true := by
  have := hc "File" (Action.file f) (by simp [Manifest.sectionItems, hf])
  rwa [Action.Id_file] at this

/-! # Validation, insertion and ordering -/

theorem exampleManifest_built : Built exampleManifest :=
  .add _ (.add _ (.add _ (.add _ (.setZpkg _ .new))))

/-- C1. If `Validate` returns no error on a manifest that was built by setting
`Zpkg` and calling `Add`, or that was loaded into a fresh manifest, then no two
of its `Dir`, `File` and `SymLink` actions share a path (whatever their
variants), every `Template` names the path of a `File` of the manifest as its
source, and no `Requirement` is named like the `Zpkg`. -/
theorem Validate_ok_invariants (m : Manifest) (hp : Produced m)
    (hv : m.Validate.2 = .ok none) :
    ((m.Section ["Dir", "File", "SymLink"]).map Action.Key).Nodup ∧
    (∀ t ∈ m.Templates, ∃ f ∈ m.Files, f.Path = t.Source) ∧
    (∀ z, m.Zpkg = some z → ∀ r ∈ m.Requirements, r.Name ≠ z.Name) := by
  obtain ⟨h1, h2, h3⟩ := Manifest.Validate_ok_parts hv
  refine ⟨?_, ?_, h3⟩
  · have hn := nodup_of_firstConflict_none _ (sortActions_sorted _) h1
    exact (((sortActions_perm _).map Action.Key).nodup_iff).1 hn
  · intro t ht
    exact hp.sound_covers.1.file_of_entry (h2 t ht)

theorem Validate_ok_invariants_witness :
    Produced exampleManifest ∧ exampleManifest.Validate.2 = .ok none ∧
    (((exampleManifest.Section ["Dir", "File", "SymLink"]).map Action.Key).Nodup ∧
      (∀ t ∈ exampleManifest.Templates, ∃ f ∈ exampleManifest.Files, f.Path = t.Source) ∧
      (∀ z, exampleManifest.Zpkg = some z →
        ∀ r ∈ exampleManifest.Requirements, r.Name ≠ z.Name)) :=
  ⟨.built exampleManifest_built, rfl,
    Validate_ok_invariants exampleManifest (.built exampleManifest_built) rfl⟩

/-- C2. On a manifest built by setting `Zpkg` and calling `Add`, `Validate`
returns no error as soon as no `Requirement` is named like the `Zpkg`, the
paths of the `Dir`, `File` and `SymLink` actions are pairwise distinct, and
every `Template` names the path of a `File` of the manifest as its source. -/
theorem Validate_ok_of_invariants (m : Manifest) (hb : Built m) (z : Zpkg)
    (hz : m.Zpkg = some z)
    (hreq : ∀ r ∈ m.Requirements, r.Name ≠ z.Name)
    (hpaths : ((m.Section ["Dir", "File", "SymLink"]).map Action.Key).Nodup)
    (htpl : ∀ t ∈ m.Templates, ∃ f ∈ m.Files, f.Path = t.Source) :
    m.Validate.2 = .ok none := by
  rw [Manifest.Validate_some hz]
  have h1 : ¬ ∃ r ∈ m.Requirements, r.Name = z.Name := by
    rintro ⟨r, hr, e⟩
    exact hreq r hr e
  have h2 : firstConflict (sortActions (m.Section ["Dir", "File", "SymLink"])) = none :=
    firstConflict_none_of_nodup _
      ((((sortActions_perm _).map Action.Key).nodup_iff).2 hpaths)
  have h3 : ¬ ∃ t ∈ m.Templates, (m.index.get? ("File." ++ t.Source)).isSome = false := by
    rintro ⟨t, ht, e⟩
    obtain ⟨f, hf, hft⟩ := htpl t ht
    have := hb.sound_exact.2.covers.entry_of_file hf
    rw [hft, e] at this
    exact absurd this (by simp)
  rw [if_neg h1, h2]
  simp only [if_neg h3]

theorem Validate_ok_of_invariants_witness :
    Built exampleManifest ∧
    exampleManifest.Zpkg = some ⟨"p", "1.0.0", "", "", "", "", ""⟩ ∧
    (∀ r ∈ exampleManifest.Requirements, r.Name ≠ "p") ∧
    ((exampleManifest.Section ["Dir", "File", "SymLink"]).map Action.Key).Nodup ∧
    (∀ t ∈ exampleManifest.Templates, ∃ f ∈ exampleManifest.Files, f.Path = t.Source) ∧
    exampleManifest.Validate.2 = .ok none :=
  ⟨exampleManifest_built, rfl, by decide, by decide, by decide,
    Validate_ok_of_invariants exampleManifest exampleManifest_built
      ⟨"p", "1.0.0", "", "", "", "", ""⟩ rfl (by decide) (by decide) (by decide)⟩

/-- C3. On the manifest that `NewManifest` returns, with no `Zpkg` set, and one
requirement added, `Validate` does not return: reading `m.Zpkg.Name` is a nil
pointer dereference. The call leaves the manifest as it was. -/
theorem Validate_unset_zpkg_panics :
    requirementOnly.Zpkg = none ∧
    requirementOnly.Requirements = [⟨"q", "depends", "ANY", ""⟩] ∧
    requirementOnly.Validate.2 = .error .nilPointerDereference ∧
    requirementOnly.Validate.1 = requirementOnly :=
  ⟨rfl, rfl, rfl, rfl⟩

theorem IndexExact.nodup_ids {m : Manifest} (hx : IndexExact m) (T : String) :
    ((m.sectionItems T).map Action.Id).Nodup := by
  rw [List.nodup_iff_getElem?_ne_getElem?]
  intro i j hij hj heq
  rw [List.length_map] at hj
  have hi : i < (m.sectionItems T).length := lt_trans hij hj
  have h1 := hx T i _ (List.getElem?_eq_getElem hi)
  have h2 := hx T j _ (List.getElem?_eq_getElem hj)
  rw [List.getElem?_map, List.getElem?_map, List.getElem?_eq_getElem hi,
    List.getElem?_eq_getElem hj] at heq
  simp only [Option.map_some', Option.some.injEq] at heq
  rw [heq, h2] at h1
  have : j = i := Option.some.inj h1
  omega

/-- C4. `Add` appends or replaces by id. On a manifest built from `NewManifest`
by `Add` calls (and setting `Zpkg`), for an action `a` that is not a `Zpkg`:
when no stored action has the id of `a`, `Add` appends `a` to the section of
its type and leaves the other sections and the `Zpkg` as they are; when a
stored action has the id of `a`, `Add` writes `a` over that action at its
position in the section of its type, so that all lengths and all other actions
stay; and no section of the manifest, before or after, holds two actions of
one id. -/
theorem Add_append_or_replace (m : Manifest) (hb : Built m) (a : Action)
    (hz : a.Type ≠ "Zpkg") :
    ((∀ T, ∀ b ∈ m.Section [T], b.Id ≠ a.Id) →
      (m.Add a).Section [a.Type] = m.Section [a.Type] ++ [a] ∧
      (∀ T, T ≠ a.Type → (m.Add a).Section [T] = m.Section [T]) ∧
      (m.Add a).Zpkg = m.Zpkg) ∧
    ((∃ T, ∃ b ∈ m.Section [T], b.Id = a.Id) →
      ∃ i b, (m.Section [a.Type])[i]? = some b ∧ b.Id = a.Id ∧
        (m.Add a).Section [a.Type] = (m.Section [a.Type]).set i a ∧
        (∀ T, T ≠ a.Type → (m.Add a).Section [T] = m.Section [T]) ∧
        (∀ T, ((m.Add a).Section [T]).length = (m.Section [T]).length) ∧
        (m.Add a).Zpkg = m.Zpkg) ∧
    (∀ T, ((m.Section [T]).map Action.Id).Nodup ∧
      (((m.Add a).Section [T]).map Action.Id).Nodup) := by
  obtain ⟨hs, hx⟩ := hb.sound_exact
  have hc := hx.covers
  simp only [Manifest.Section_single]
  refine ⟨?_, ?_, ?_⟩
  · intro habs
    have he : m.Exists a = false := by
      by_contra hn
      have he : m.Exists a = true := by simpa using hn
      obtain ⟨i, hi⟩ := Manifest.Exists_iff.1 he
      obtain ⟨c, hcpos, hcid⟩ := hs.lookup hi
      exact habs a.Type c (List.mem_iff_getElem?.2 ⟨i, hcpos⟩) hcid
    obtain ⟨_, hzp, hsec⟩ := Manifest.Add_absent hc a hz he
    refine ⟨by rw [hsec, if_pos rfl], ?_, hzp⟩
    intro T hT
    rw [hsec, if_neg hT]
  · rintro ⟨T, b, hbm, hbid⟩
    obtain ⟨j, hj⟩ := List.mem_iff_getElem?.1 hbm
    have hget : m.index.get? a.Id = some j := by
      rw [← hbid]; exact hx T j b hj
    have he : m.Exists a = true := Manifest.Exists_iff.2 ⟨j, hget⟩
    obtain ⟨_, hzp, hsec⟩ := Manifest.Add_present hc a he
    rw [IndexMap.at_eq hget] at hsec
    have hT : T = a.Type := by
      rw [← Manifest.mem_sectionItems_type hbm]
      exact (Action.Id_inj hbid).1
    subst hT
    refine ⟨j, b, hj, hbid, by rw [hsec, if_pos rfl], ?_, ?_, hzp⟩
    · intro T hT
      rw [hsec, if_neg hT]
    · intro T
      rw [hsec]
      split_ifs <;> simp
  · intro T
    exact ⟨hx.nodup_ids T, (Built.add a hb).sound_exact.2.nodup_ids T⟩

theorem Add_append_or_replace_witness :
    Built exampleManifest ∧
    (Action.file ⟨"/etc/a.tmpl", "app", "app", "0600", "", 7⟩).Type ≠ "Zpkg" ∧
    (exampleManifest.Add (.file ⟨"/etc/a.tmpl", "app", "app", "0600", "", 7⟩)).Section ["File"]
      = [.file ⟨"/etc/a.tmpl", "app", "app", "0600", "", 7⟩] ∧
    (exampleManifest.Add (.file ⟨"/etc/b", "app", "app", "0600", "", 7⟩)).Section ["File"]
      = [.file ⟨"/etc/a.tmpl", "root", "root", "0644", "", 0⟩,
         .file ⟨"/etc/b", "app", "app", "0600", "", 7⟩] ∧
    (∀ T, ((exampleManifest.Section [T]).map Action.Id).Nodup) :=
  ⟨exampleManifest_built, by decide, rfl, rfl, fun T =>
    ((Add_append_or_replace exampleManifest exampleManifest_built
      (.file ⟨"/etc/a.tmpl", "app", "app", "0600", "", 7⟩) (by decide)).2.2 T).1⟩

/-- C5. On a manifest with a `Zpkg`, `Actions` returns the `Zpkg`, then the
tags, the requirements, the templates, the services and the signatures, each
group in stored order, then the `Dir`, `File` and `SymLink` actions together,
sorted by path ascending. The result holds every action of the manifest exactly
once, and the manifest is left as it was. -/
theorem Actions_order (m : Manifest) (z : Zpkg) (hz : m.Zpkg = some z) :
    ∃ fs : List Action,
      m.Actions.2 = (Action.zpkg z :: (m.Tags.map Action.tag
        ++ m.Requirements.map Action.requirement ++ m.Templates.map Action.template
        ++ m.Services.map Action.service ++ m.Signatures.map Action.signature
        ++ fs)).map some ∧
      fs.Perm (m.Dirs.map Action.dir ++ m.Files.map Action.file
        ++ m.SymLinks.map Action.symLink) ∧
      List.Sorted (fun a b => a.Key.data ≤ b.Key.data) fs ∧
      (m.Actions.2).Perm ((Action.zpkg z :: (m.Tags.map Action.tag
        ++ m.Requirements.map Action.requirement ++ m.Dirs.map Action.dir
        ++ m.Files.map Action.file ++ m.SymLinks.map Action.symLink
        ++ m.Templates.map Action.template ++ m.Services.map Action.service
        ++ m.Signatures.map Action.signature)).map some) ∧
      m.Actions.1 = m := by
  have hperm := sortActions_perm (m.Dirs.map Action.dir ++ m.Files.map Action.file
        ++ m.SymLinks.map Action.symLink)
  have hsort := sortActions_sorted (m.Dirs.map Action.dir ++ m.Files.map Action.file
        ++ m.SymLinks.map Action.symLink)
  have hA : m.Actions.2 = (Action.zpkg z :: (m.Tags.map Action.tag
        ++ m.Requirements.map Action.requirement ++ m.Templates.map Action.template
        ++ m.Services.map Action.service ++ m.Signatures.map Action.signature
        ++ sortActions (m.Dirs.map Action.dir ++ m.Files.map Action.file
        ++ m.SymLinks.map Action.symLink))).map some := by
    simp [Manifest.Actions, Manifest.Section_fs, Manifest.Section_single,
      Manifest.sectionItems, hz]
  refine ⟨_, hA, hperm, hsort, ?_, rfl⟩
  rw [hA]
  apply List.Perm.map
  apply List.Perm.cons
  rw [List.perm_iff_count]
  intro x
  have hc := hperm.count_eq x
  simp only [List.count_append] at hc ⊢
  omega

theorem Actions_order_witness :
    exampleManifest.Zpkg = some ⟨"p", "1.0.0", "", "", "", "", ""⟩ ∧
    exampleManifest.Actions.2 =
      [some (.zpkg ⟨"p", "1.0.0", "", "", "", "", ""⟩),
       some (.requirement ⟨"q", "depends", "ANY", ""⟩),
       some (.template ⟨"/etc/a.tmpl", "/etc/a", "root", "root", "0644"⟩),
       some (.dir ⟨"/etc", "root", "root", "0755"⟩),
       some (.file ⟨"/etc/a.tmpl", "root", "root", "0644", "", 0⟩)] ∧
    exampleManifest.Actions.1 = exampleManifest :=
  ⟨rfl, rfl, (Actions_order exampleManifest _ rfl).choose_spec.2.2.2.2⟩

end action

/-! # Properties of the transaction -/

namespace zpm

open action

/-- The filters `"dir"`, `"file"`, `"symlink"` match no case of the switch in
`Section`, whose labels are `"Dir"`, `"File"`, `"SymLink"`. -/
theorem Section_lowercase (m : Manifest) : m.Section ["dir", "file", "symlink"] = [] := by
  simp [Manifest.Section, Manifest.sectionItems]

/-- C6. `P` and `Q` both declare the file `/etc/x`; the solution-conflict check
on their readers returns no error, and `Realize` installs both. -/
theorem solutionConflicts_misses_shared_file :
    loadedPQ.readers.map (fun r => r.2.Manifest.Section ["File"])
      = [[.file ⟨"/etc/x", "root", "root", "0644", "", 0⟩],
         [.file ⟨"/etc/x", "root", "root", "0644", "", 0⟩]] ∧
    loadedPQ.solutionConflicts exampleEnv = .ok ∧
    ((NewTransaction "/" emptyState "tx1" 7).Realize exampleEnv installPQ).2 = .ok ∧
    ((NewTransaction "/" emptyState "tx1" 7).Realize exampleEnv installPQ).1.state.Packages.map
      Prod.fst = ["P", "Q"] := by
  refine ⟨rfl, rfl, rfl, rfl⟩

/-- C7. `P` is installed and owns the file `/etc/x`; `Q` declares the file
`/etc/x`; the image-conflict check for `Q` returns no error. -/
theorem imageConflicts_misses_owned_file :
    loadedQ.state.ObjectsGet "/etc/x" = [⟨"/etc/x", "P", "File"⟩] ∧
    loadedQ.readers.map (fun r => (r.1, r.2.Manifest.Section ["File"]))
      = [("Q", [.file ⟨"/etc/x", "root", "root", "0644", "", 0⟩])] ∧
    loadedQ.imageConflicts exampleEnv = .ok := by
  refine ⟨rfl, rfl, rfl⟩

/-- C9. The manifest of `P` holds the file `/etc/x`; its install returns no
error, having called no provider and written no entry to `Objects`: the only
call is `Packages.Put`. -/
theorem install_skips_filesystem_actions :
    (loadedPQ.reader "P").map (fun r => r.Manifest.Section ["File"])
      = some [.file ⟨"/etc/x", "root", "root", "0644", "", 0⟩] ∧
    (loadedPQ.install exampleEnv (pkgOf "P" "1.0.0")).2 = .ok ∧
    (loadedPQ.install exampleEnv (pkgOf "P" "1.0.0")).1.log
      = [.packagesPut "P" (fileManifest "P" "1.0.0" "/etc/x")] ∧
    (loadedPQ.install exampleEnv (pkgOf "P" "1.0.0")).1.state.ObjectsGet "/etc/x" = [] := by
  refine ⟨rfl, rfl, rfl, rfl⟩


theorem loadReadersLoop_frame (env : Env) : ∀ (ops : List Operation) (t : Transaction),
    (t.loadReadersLoop env ops).1.state = t.state ∧
    (t.loadReadersLoop env ops).1.log = t.log ∧
    (t.loadReadersLoop env ops).1.solution = t.solution
  | [], t => ⟨rfl, rfl, rfl⟩
  | operation :: rest, t => by
    unfold Transaction.loadReadersLoop
    split_ifs with h
    · cases hr : env.Read operation.Package.FileName with
      | error e => exact ⟨rfl, rfl, rfl⟩
      | ok reader =>
        dsimp only
        cases hp : env.NewPkgFromManifest reader.Manifest with
        | error e => exact ⟨rfl, rfl, rfl⟩
        | ok pkg => exact loadReadersLoop_frame env rest (t.setReader pkg.Name reader)
    · exact loadReadersLoop_frame env rest t

/-- Every reader that `loadReaders` stores holds a manifest on which
`NewPkgFromManifest` succeeds. -/
theorem loadReadersLoop_readers (env : Env) : ∀ (ops : List Operation) (t : Transaction),
    (∀ p ∈ t.readers, ∃ pkg, env.NewPkgFromManifest p.2.Manifest = .ok pkg) →
    ∀ p ∈ (t.loadReadersLoop env ops).1.readers,
      ∃ pkg, env.NewPkgFromManifest p.2.Manifest = .ok pkg
  | [], _, h => h
  | operation :: rest, t, h => by
    unfold Transaction.loadReadersLoop
    split_ifs with hi
    · cases hr : env.Read operation.Package.FileName with
      | error e => exact h
      | ok reader =>
        dsimp only
        cases hp : env.NewPkgFromManifest reader.Manifest with
        | error e => exact h
        | ok pkg =>
          refine loadReadersLoop_readers env rest (t.setReader pkg.Name reader) ?_
          intro p hpm
          simp only [Transaction.setReader, List.mem_append, List.mem_singleton] at hpm
          rcases hpm with hpm | hpm
          · exact h p (List.mem_of_mem_filter hpm)
          · rw [hpm]
            exact ⟨pkg, hp⟩
    · exact loadReadersLoop_readers env rest t h

theorem gather_nothing (env : Env) : ∀ readers : List (String × Reader),
    (∀ p ∈ readers, ∃ pkg, env.NewPkgFromManifest p.2.Manifest = .ok pkg) →
    Transaction.gather env readers = .ok []
  | [], _ => rfl
  | (name, reader) :: rest, h => by
    obtain ⟨pkg, hp⟩ := h (name, reader) (List.mem_cons_self _ _)
    have ih := gather_nothing env rest (fun p hpm => h p (List.mem_cons_of_mem _ hpm))
    simp only [Transaction.gather, hp, ih, Section_lowercase, List.map_nil, List.append_nil]

theorem imageConflictsLoop_nothing (env : Env) (t : Transaction) :
    ∀ readers : List (String × Reader),
      (∀ p ∈ readers, ∃ pkg, env.NewPkgFromManifest p.2.Manifest = .ok pkg) →
      t.imageConflictsLoop env readers = .ok
  | [], _ => rfl
  | (name, reader) :: rest, h => by
    obtain ⟨pkg, hp⟩ := h (name, reader) (List.mem_cons_self _ _)
    have ih := imageConflictsLoop_nothing env t rest
      (fun p hpm => h p (List.mem_cons_of_mem _ hpm))
    simp only [Transaction.imageConflictsLoop, hp, ih, Section_lowercase,
      Transaction.actionConflicts]

/-- On the transaction that `loadReaders` leaves, as `Realize` calls it,
neither conflict check returns an error, whatever the packages ship. -/
theorem checks_pass_after_load (env : Env) (t0 t : Transaction) (solution : Solution)
    (o : Outcome)
    (h : ({ t0 with solution := some solution, readers := [] } : Transaction).loadReaders env
      = (t, o)) :
    t.solutionConflicts env = .ok ∧ t.imageConflicts env = .ok := by
  have hr := loadReadersLoop_readers env solution.Operations
    { t0 with solution := some solution, readers := [] } (by simp)
  simp only [Transaction.loadReaders] at h
  rw [h] at hr
  exact ⟨by simp only [Transaction.solutionConflicts, gather_nothing env t.readers hr,
      sortOwned, List.insertionSort, firstPackageConflict],
    imageConflictsLoop_nothing env t t.readers hr⟩

/-- C8. `P` and `Q` both declare the file `/etc/x`, a conflict between two
packages of one solution. On the readers that `Realize` loads neither check
returns an error, and `Realize` does not stop: it returns no error having
written both packages to `Packages` and two entries to `Transactions`, so the
tables after the call are not those from before it. -/
theorem Realize_writes_despite_conflict :
    ((NewTransaction "/" emptyState "tx1" 7).Realize exampleEnv installPQ).1.readers.map
        (fun p => (p.1, p.2.Manifest.Section ["File"]))
      = [("P", [.file ⟨"/etc/x", "root", "root", "0644", "", 0⟩]),
         ("Q", [.file ⟨"/etc/x", "root", "root", "0644", "", 0⟩])] ∧
    ((NewTransaction "/" emptyState "tx1" 7).Realize exampleEnv
      installPQ).1.solutionConflicts exampleEnv = .ok ∧
    ((NewTransaction "/" emptyState "tx1" 7).Realize exampleEnv
      installPQ).1.imageConflicts exampleEnv = .ok ∧
    ((NewTransaction "/" emptyState "tx1" 7).Realize exampleEnv installPQ).2 = .ok ∧
    ((NewTransaction "/" emptyState "tx1" 7).Realize exampleEnv installPQ).1.log
      = [.packagesPut "P" (fileManifest "P" "1.0.0" "/etc/x"),
         .transactionsPut "tx1" "P@1.0.0" "install" 7,
         .packagesPut "Q" (fileManifest "Q" "1.0.0" "/etc/x"),
         .transactionsPut "tx1" "Q@1.0.0" "install" 7] ∧
    ((NewTransaction "/" emptyState "tx1" 7).Realize exampleEnv installPQ).1.state
      = { Packages := [("P", fileManifest "P" "1.0.0" "/etc/x"),
                       ("Q", fileManifest "Q" "1.0.0" "/etc/x")],
          Objects := [],
          Transactions := [⟨"tx1", "P@1.0.0", "install", 7⟩,
                           ⟨"tx1", "Q@1.0.0", "install", 7⟩] } ∧
    ((NewTransaction "/" emptyState "tx1" 7).Realize exampleEnv installPQ).1.state
      ≠ (NewTransaction "/" emptyState "tx1" 7).state :=
  ⟨rfl, rfl, rfl, rfl, rfl, rfl,
    fun h => absurd (congrArg (fun s => s.Transactions.length) h) (by decide)⟩

theorem State.PackagesGet_PackagesPut (s : State) (name : String) (m : Manifest) :
    (s.PackagesPut name m).PackagesGet name = some m := by
  have h : ∀ l : List (String × Manifest),
      (l.filter (fun p => ¬ p.1 = name) ++ [(name, m)]).find? (fun p => p.1 = name)
        = some (name, m) := by
    intro l
    induction l with
    | nil => simp
    | cons p rest ih =>
      by_cases hp : p.1 = name
      · simp [List.filter, hp]
      · simp [List.filter, hp, List.find?]
  simp only [State.PackagesGet, State.PackagesPut]
  rw [h]
  rfl

theorem Transaction.perform_ok (env : Env) (t : Transaction) (c : Call)
    (apply : State → State) (h : env.fails c = none) :
    t.perform env c apply = ({ t with state := apply t.state, log := t.log ++ [c] }, .ok) := by
  simp [Transaction.perform, h]

/-- C10. When the loop of `Realize` reaches an install of `B` while a manifest
`A` is installed under the name of `B`, and no call fails, it runs `remove`,
logs `remove` with the package id of `A`, runs `install` and logs `install`
with the package id of `B`, in this order and both under the id and the date of
the transaction; afterwards `Packages.Get` of the name is the manifest of `B`.
An operation of kind `noop` leaves the transaction as it is: no entry, no
change to a table. -/
theorem upgrade_is_paired (env : Env) (t : Transaction) (B : Pkg) (A mB : Manifest)
    (pA pB : Pkg) (hf : ∀ c, env.fails c = none)
    (hA : t.state.PackagesGet B.Name = some A) (hpA : env.NewPkgFromManifest A = .ok pA)
    (hr : t.reader B.Name = some ⟨mB⟩) (hpB : env.NewPkgFromManifest mB = .ok pB)
    (hname : pB.Name = B.Name) :
    (t.step env ⟨"install", B⟩).2 = .ok ∧
    (t.step env ⟨"install", B⟩).1.state.Transactions
      = t.state.Transactions
        ++ [⟨t.id, pA.Id, "remove", t.date⟩, ⟨t.id, B.Id, "install", t.date⟩] ∧
    (t.step env ⟨"install", B⟩).1.state.PackagesGet B.Name = some mB ∧
    (∃ t1 t2 t3, t.remove env B = (t1, .ok) ∧ t1.record env pA.Id "remove" = (t2, .ok) ∧
      t2.install env B = (t3, .ok) ∧
      t3.record env B.Id "install" = t.step env ⟨"install", B⟩) ∧
    (∀ p, t.step env ⟨"noop", p⟩ = (t, .ok)) := by
  have hsec : ∀ m : Manifest, m.Section ["dir", "file", "symlink"] = [] := Section_lowercase
  have hrem : t.remove env B
      = ({ t with state := t.state.PackagesDel pA.Name,
                  log := t.log ++ [.packagesDel pA.Name] }, .ok) := by
    simp [Transaction.remove, hf, hA, hpA, hsec, sortActionsReverse, Transaction.performAll,
      Transaction.perform]
  have hinst : ∀ t2 : Transaction, t2.readers = t.readers → t2.install env B
      = ({ t2 with state := t2.state.PackagesPut pB.Name mB,
                   log := t2.log ++ [.packagesPut pB.Name mB] }, .ok) := by
    intro t2 h2
    have hr2 : t2.reader B.Name = some ⟨mB⟩ := by
      simpa [Transaction.reader, h2] using hr
    simp [Transaction.install, hf, hr2, hpB, hsec, sortActions, Transaction.performAll,
      Transaction.perform]
  have hstep : t.step env ⟨"install", B⟩
      = ({ t with
            state := (((t.state.PackagesDel pA.Name).TransactionsPut t.id pA.Id "remove"
              t.date).PackagesPut pB.Name mB).TransactionsPut t.id B.Id "install" t.date,
            log := t.log ++ [.packagesDel pA.Name] ++ [.transactionsPut t.id pA.Id "remove" t.date]
              ++ [.packagesPut pB.Name mB] ++ [.transactionsPut t.id B.Id "install" t.date] },
          .ok) := by
    simp [Transaction.step, Transaction.dispatch, hf, hA, hpA, hrem, Transaction.record,
      Transaction.perform, hinst]
  refine ⟨?_, ?_, ?_, ?_, ?_⟩
  · rw [hstep]
  · rw [hstep]
    simp [State.TransactionsPut, State.PackagesPut, State.PackagesDel]
  · rw [hstep]
    simp only [State.TransactionsPut]
    rw [← hname]
    exact State.PackagesGet_PackagesPut _ _ _
  · refine ⟨_, _, _, hrem, Transaction.perform_ok env _ _ _ (hf _), hinst _ rfl, ?_⟩
    rw [hstep]
    exact Transaction.perform_ok env _ _ _ (hf _)
  · intro p
    simp [Transaction.step, Transaction.dispatch]

theorem upgrade_is_paired_witness :
    (loadedA.step exampleEnv ⟨"install", pkgOf "A" "1.1.0"⟩).2 = .ok ∧
    (loadedA.step exampleEnv ⟨"install", pkgOf "A" "1.1.0"⟩).1.state.Transactions
      = [⟨"tx0", "A@1.0.0", "install", 3⟩, ⟨"tx1", "A@1.0.0", "remove", 7⟩,
         ⟨"tx1", "A@1.1.0", "install", 7⟩] ∧
    (loadedA.step exampleEnv ⟨"install", pkgOf "A" "1.1.0"⟩).1.state.PackagesGet "A"
      = some (fileManifest "A" "1.1.0" "/opt/a") :=
  have h := upgrade_is_paired exampleEnv loadedA (pkgOf "A" "1.1.0")
    (fileManifest "A" "1.0.0" "/opt/a") (fileManifest "A" "1.1.0" "/opt/a")
    (pkgOf "A" "1.0.0") (pkgOf "A" "1.1.0") (fun _ => rfl) rfl rfl rfl rfl rfl
  ⟨h.1, h.2.1, h.2.2.1⟩

end zpm

/-! # Providers, signing, manager and cloud metadata -/

namespace zpm

/-- C11. The manifest of `D` holds the directory `/a` and the file `/a/b`. Its
install calls `Packages.Put` and nothing else, its remove `Packages.Del` and
nothing else: no provider is invoked for `/a` or `/a/b`, in any order. -/
theorem providers_not_invoked :
    dirFileManifest.Section ["Dir", "File", "SymLink"]
      = [.dir ⟨"/a", "root", "root", "0755"⟩, .file ⟨"/a/b", "root", "root", "0644", "", 0⟩] ∧
    (loadedD.install exampleEnv (pkgOf "D" "1.0.0")).2 = .ok ∧
    (loadedD.install exampleEnv (pkgOf "D" "1.0.0")).1.log
      = [.packagesPut "D" dirFileManifest] ∧
    (installedD.remove exampleEnv (pkgOf "D" "1.0.0")).2 = .ok ∧
    (installedD.remove exampleEnv (pkgOf "D" "1.0.0")).1.log = [.packagesDel "D"] :=
  ⟨rfl, rfl, rfl, rfl, rfl⟩

theorem Manager.request_no_candidates (env : ManagerEnv) (pool : Pool)
    (add : Requirement → Job) (arg : String) (rest : List String) (req : Requirement)
    (harg : env.NewRequirementFromSimpleString arg = .ok req)
    (hnone : pool.WhatProvides req = []) :
    ∀ pre : List String,
      (∀ a ∈ pre, ∃ r, env.NewRequirementFromSimpleString a = .ok r ∧ pool.WhatProvides r ≠ []) →
      Manager.request env pool add (pre ++ arg :: rest)
        = .error (.new ("No candidates found for " ++ arg))
  | [], _ => by simp [Manager.request, harg, hnone]
  | a :: pre, h => by
    obtain ⟨r, hr, hne⟩ := h a (List.mem_cons_self _ _)
    have ih := Manager.request_no_candidates env pool add arg rest req harg hnone pre
      (fun b hb => h b (List.mem_cons_of_mem _ hb))
    have hlen : ¬ (pool.WhatProvides r).length = 0 := by
      intro h0
      exact hne (List.length_eq_zero.1 h0)
    simp [Manager.request, hr, hlen, ih]

/-- C14, as the code has it. In `Manager.Install`, and in `Manager.Plan` with
action install or remove, when the pool is built and an argument parses to a
requirement for which `WhatProvides` returns no candidate, while every
argument before it parses to a requirement with a candidate, the call returns
the error `No candidates found for <arg>` for that argument and runs neither
the solver nor a fetcher nor a transaction. -/
theorem no_candidates_for_first (env : ManagerEnv) (pool : Pool) (action : String)
    (pre : List String) (arg : String) (rest : List String) (req : Requirement)
    (hpool : env.pool = .ok pool)
    (hpre : ∀ a ∈ pre, ∃ r, env.NewRequirementFromSimpleString a = .ok r ∧
      pool.WhatProvides r ≠ [])
    (harg : env.NewRequirementFromSimpleString arg = .ok req)
    (hnone : pool.WhatProvides req = [])
    (hact : action = "install" ∨ action = "remove") :
    Manager.Install env (pre ++ arg :: rest)
      = ([], some (.new ("No candidates found for " ++ arg))) ∧
    (Manager.Plan env action (pre ++ arg :: rest)).1 = [] ∧
    ∃ e, (Manager.Plan env action (pre ++ arg :: rest)).2 = .error e ∧
      e = .new ("No candidates found for " ++ arg) := by
  have h1 := fun add =>
    Manager.request_no_candidates env pool add arg rest req harg hnone pre hpre
  have hact2 : ¬ (action ≠ "install" ∧ action ≠ "remove") := by
    rcases hact with h | h <;> simp [h]
  refine ⟨?_, ?_, ?_⟩
  · simp [Manager.Install, hpool, h1]
  · simp only [Manager.Plan, if_neg hact2, hpool, h1]
  · exact ⟨_, by simp only [Manager.Plan, if_neg hact2, hpool, h1], rfl⟩

theorem no_candidates_for_first_witness :
    Manager.Install exampleManager (["A"] ++ "X" :: ["Y"])
      = ([], some (.new ("No candidates found for " ++ "X"))) :=
  (no_candidates_for_first exampleManager
    ⟨fun req => if req.Name = "A" then [pkgOf "A" "1.1.0"] else []⟩ "install"
    ["A"] "X" ["Y"] ⟨"X", "ANY", ""⟩ rfl
    (fun a ha => by
      rw [List.mem_singleton.1 ha]
      exact ⟨⟨"A", "ANY", ""⟩, rfl, by decide⟩)
    rfl rfl (Or.inl rfl)).1

/-- C14, as stated, does not hold: the argument `X` parses to a requirement
without candidate, but the argument `!x` before it does not parse, and
`Manager.Install` returns the error of the parse, not `No candidates found
for X`. -/
theorem parse_error_comes_first :
    exampleManager.NewRequirementFromSimpleString "X" = .ok ⟨"X", "ANY", ""⟩ ∧
    (∃ pool, exampleManager.pool = .ok pool ∧ pool.WhatProvides ⟨"X", "ANY", ""⟩ = []) ∧
    (Manager.Install exampleManager ["!x", "X"]).2
      = some (.collaborator (.external "requirement does not parse")) ∧
    (Manager.Install exampleManager ["!x", "X"]).2
      ≠ some (.new ("No candidates found for " ++ "X")) :=
  ⟨rfl, ⟨_, rfl, rfl⟩, rfl, by decide⟩

/-- C16. With two repos in the configuration, both refreshing without error,
`Manager.Refresh` refreshes the first one only and returns nil. -/
theorem Refresh_stops_after_first_repo :
    exampleManager.Repos = [⟨"main", "file:///repo/main"⟩, ⟨"extra", "file:///repo/extra"⟩] ∧
    exampleManager.Refresh ⟨"extra", "file:///repo/extra"⟩ = none ∧
    Manager.Refresh exampleManager = ([.refresh ⟨"main", "file:///repo/main"⟩], none) :=
  ⟨rfl, rfl, rfl⟩

end zpm

namespace action

/-- C12. `ToSigningJson` of a manifest is `ToJson` of the manifest with its
signatures cleared and all else the same; the call leaves the manifest,
signatures included, as it was; and two manifests whose exported fields other
than the signatures agree have the same signing JSON. -/
theorem ToSigningJson_clears_signatures (marshal : Manifest → String) (m : Manifest) :
    (m.ToSigningJson marshal).2 = (({ m with Signatures := [] } : Manifest).ToJson marshal).2 ∧
    (m.ToSigningJson marshal).1 = m ∧
    ∀ m2 : Manifest, m.Zpkg = m2.Zpkg → m.Tags = m2.Tags →
      m.Requirements = m2.Requirements → m.Dirs = m2.Dirs → m.Files = m2.Files →
      m.SymLinks = m2.SymLinks → m.Templates = m2.Templates → m.Services = m2.Services →
      (m.ToSigningJson marshal).2 = (m2.ToSigningJson marshal).2 := by
  refine ⟨rfl, rfl, ?_⟩
  intro m2 h1 h2 h3 h4 h5 h6 h7 h8
  simp only [Manifest.ToSigningJson, Manifest.exported, h1, h2, h3, h4, h5, h6, h7, h8]

theorem ToSigningJson_clears_signatures_witness :
    ({ exampleManifest with Signatures := [⟨"rsa", "c2ln", "fp1"⟩] } : Manifest)
      ≠ exampleManifest ∧
    (exampleManifest.ToSigningJson exampleMarshal).2
      = (({ exampleManifest with Signatures := [⟨"rsa", "c2ln", "fp1"⟩] } :
          Manifest).ToSigningJson exampleMarshal).2 :=
  ⟨by decide, (ToSigningJson_clears_signatures exampleMarshal exampleManifest).2.2
    { exampleManifest with Signatures := [⟨"rsa", "c2ln", "fp1"⟩] }
    rfl rfl rfl rfl rfl rfl rfl rfl⟩

end action

namespace config

open action

/-- C15. When the Azure endpoint answers with the empty tags string, or with a
tags string one of whose entries has no `:`, the loop reads `split[1]` of a
slice of length one and `CloudMetaFetch` panics instead of returning a map. -/
theorem CloudMetaFetch_panics_on_azure_tags :
    Split "" ';' = [""] ∧ Split "" ':' = [""] ∧
    CloudMetaFetch ⟨none, some "", none⟩ = .error .indexOutOfRange ∧
    Split "a:1;b" ';' = ["a:1", "b"] ∧ Split "b" ':' = ["b"] ∧
    CloudMetaFetch ⟨none, some "a:1;b", none⟩ = .error .indexOutOfRange :=
  ⟨rfl, rfl, rfl, rfl, rfl, rfl⟩

end config

/-! # Errors of the calls -/

namespace zpm

open action

theorem tracks_refl (env : Env) (t : Transaction) (o : Outcome) : Tracks env t (t, o) :=
  ⟨[], by simp, Or.inl (by simp)⟩

theorem tracks_perform (env : Env) (t : Transaction) (c : Call) (apply : State → State) :
    Tracks env t (t.perform env c apply) := by
  unfold Transaction.perform
  cases h : env.fails c with
  | none => exact ⟨[c], rfl, Or.inl (by simpa using h)⟩
  | some e => exact ⟨[c], rfl, Or.inr ⟨[], c, e, rfl, by simp, h, rfl⟩⟩

theorem tracks_trans {env : Env} {t t1 : Transaction} {r : Transaction × Outcome}
    (h1 : Tracks env t (t1, .ok)) (h2 : Tracks env t1 r) : Tracks env t r := by
  obtain ⟨c1, hl1, hs1⟩ := h1
  obtain ⟨c2, hl2, hs2⟩ := h2
  have hok : ∀ c ∈ c1, env.fails c = none := by
    rcases hs1 with h | ⟨_, _, _, _, _, _, h⟩
    · exact h
    · cases h
  refine ⟨c1 ++ c2, by rw [hl2, hl1, List.append_assoc], ?_⟩
  rcases hs2 with h | ⟨pre, c, e, hc, hpre, hf, ho⟩
  · left
    intro c hc
    rcases List.mem_append.1 hc with h3 | h3
    · exact hok c h3
    · exact h c h3
  · right
    refine ⟨c1 ++ pre, c, e, by rw [hc, List.append_assoc], ?_, hf, ho⟩
    intro x hx
    rcases List.mem_append.1 hx with h3 | h3
    · exact hok x h3
    · exact hpre x h3

/-- Sequencing as in the source: go on after `ok`, return anything else. -/
theorem tracks_andThen {env : Env} {t : Transaction} (r1 : Transaction × Outcome)
    (g : Transaction → Transaction × Outcome) (h1 : Tracks env t r1)
    (h2 : ∀ t1, r1 = (t1, .ok) → Tracks env t1 (g t1)) :
    Tracks env t (if r1.2 = .ok then g r1.1 else r1) := by
  obtain ⟨t1, o⟩ := r1
  by_cases ho : o = .ok
  · subst ho
    simp only [if_true]
    exact tracks_trans h1 (h2 t1 rfl)
  · simp only [ho, if_false]
    exact h1

theorem tracks_performAll {α : Type} (env : Env) (call : α → Call)
    (apply : α → State → State) :
    ∀ (l : List α) (t : Transaction), Tracks env t (Transaction.performAll env call apply t l)
  | [], t => tracks_refl env t .ok
  | x :: rest, t => by
    have h : Transaction.performAll env call apply t (x :: rest)
        = if (t.perform env (call x) (apply x)).2 = .ok then
            Transaction.performAll env call apply (t.perform env (call x) (apply x)).1 rest
          else t.perform env (call x) (apply x) := by
      rcases hp : t.perform env (call x) (apply x) with ⟨t1, o⟩
      cases o <;> simp [Transaction.performAll, hp]
    rw [h]
    exact tracks_andThen _ _ (tracks_perform env t _ _)
      (fun t1 _ => tracks_performAll env call apply rest t1)


theorem tracks_install (env : Env) (t : Transaction) (pkg : Pkg) :
    Tracks env t (t.install env pkg) := by
  unfold Transaction.install
  cases t.reader pkg.Name with
  | none => exact tracks_refl env t _
  | some reader =>
    dsimp only
    cases env.NewPkgFromManifest reader.Manifest with
    | error e => exact tracks_refl env t _
    | ok p =>
      dsimp only
      split
      next t1 heq =>
        have h1 : Tracks env t (t1, .ok) := by
          rw [← heq]; exact tracks_performAll env _ _ _ t
        refine tracks_trans h1 ?_
        split
        next t2 heq2 =>
          have h2 : Tracks env t1 (t2, .ok) := by
            rw [← heq2]; exact tracks_perform env t1 _ _
          exact tracks_trans h2 (tracks_performAll env _ _ _ t2)
        next => exact tracks_perform env t1 _ _
      next => exact tracks_performAll env _ _ _ t

theorem tracks_remove (env : Env) (t : Transaction) (pkg : Pkg) :
    Tracks env t (t.remove env pkg) := by
  unfold Transaction.remove
  cases env.fails (.packagesGet pkg.Name) with
  | some e => exact tracks_refl env t _
  | none =>
    dsimp only
    cases t.state.PackagesGet pkg.Name with
    | none => exact tracks_refl env t _
    | some lookup =>
      dsimp only
      cases env.NewPkgFromManifest lookup with
      | error e => exact tracks_refl env t _
      | ok p =>
        dsimp only
        split
        next t1 heq =>
          have h1 : Tracks env t (t1, .ok) := by
            rw [← heq]; exact tracks_performAll env _ _ _ t
          refine tracks_trans h1 ?_
          split
          next t2 heq2 =>
            have h2 : Tracks env t1 (t2, .ok) := by
              rw [← heq2]; exact tracks_perform env t1 _ _
            refine tracks_trans h2 ?_
            split
            next t3 heq3 =>
              rw [← heq3]; exact tracks_performAll env _ _ _ t2
            next => exact tracks_performAll env _ _ _ t2
          next => exact tracks_perform env t1 _ _
        next => exact tracks_performAll env _ _ _ t

theorem tracks_record (env : Env) (t : Transaction) (pkgId operation : String) :
    Tracks env t (t.record env pkgId operation) :=
  tracks_perform env t _ _

theorem tracks_dispatch (env : Env) (t : Transaction) (operation : Operation) :
    Tracks env t (t.dispatch env operation) := by
  unfold Transaction.dispatch
  split_ifs with h1 h2
  · exact tracks_remove env t _
  · cases env.fails (.packagesGet operation.Package.Name) with
    | some e => exact tracks_refl env t _
    | none =>
      dsimp only
      cases t.state.PackagesGet operation.Package.Name with
      | none => exact tracks_install env t _
      | some lookup =>
        dsimp only
        cases env.NewPkgFromManifest lookup with
        | error e => exact tracks_refl env t _
        | ok lns =>
          dsimp only
          split
          next t1 heq =>
            have h1 : Tracks env t (t1, .ok) := by
              rw [← heq]; exact tracks_remove env t _
            refine tracks_trans h1 ?_
            split
            next t2 heq2 =>
              have h2 : Tracks env t1 (t2, .ok) := by
                rw [← heq2]; exact tracks_record env t1 _ _
              exact tracks_trans h2 (tracks_install env t2 _)
            next => exact tracks_record env t1 _ _
          next => exact tracks_remove env t _
  · exact tracks_refl env t _

theorem tracks_step (env : Env) (t : Transaction) (operation : Operation) :
    Tracks env t (t.step env operation) := by
  unfold Transaction.step
  split
  next t1 heq =>
    have h1 : Tracks env t (t1, .ok) := by
      rw [← heq]; exact tracks_dispatch env t operation
    refine tracks_trans h1 ?_
    split_ifs
    · exact tracks_record env t1 _ _
    · exact tracks_refl env t1 _
  next => exact tracks_dispatch env t operation

theorem tracks_apply (env : Env) :
    ∀ (ops : List Operation) (t : Transaction), Tracks env t (Transaction.apply env t ops)
  | [], t => tracks_refl env t _
  | operation :: rest, t => by
    unfold Transaction.apply
    split
    next t1 heq =>
      have h1 : Tracks env t (t1, .ok) := by
        rw [← heq]; exact tracks_step env t operation
      exact tracks_trans h1 (tracks_apply env rest t1)
    next => exact tracks_step env t operation

theorem tracks_realizeLoaded (env : Env) (t : Transaction) :
    Tracks env t (t.realizeLoaded env) := by
  unfold Transaction.realizeLoaded
  cases t.solutionConflicts env <;> dsimp only
  · cases t.imageConflicts env <;> dsimp only
    · cases t.solution with
      | none => exact tracks_refl env t _
      | some solution =>
        dsimp only
        cases solution.Graph with
        | error e => exact tracks_refl env t _
        | ok operations => exact tracks_apply env operations t
    · exact tracks_refl env t _
    · exact tracks_refl env t _
  · exact tracks_refl env t _
  · exact tracks_refl env t _

theorem tracks_Realize (env : Env) (t : Transaction) (solution : Solution) :
    Tracks env t (t.Realize env solution) := by
  unfold Transaction.Realize
  have hl := loadReadersLoop_frame env solution.Operations
    { t with solution := some solution, readers := [] }
  have h0 : Tracks env t
      (({ t with solution := some solution, readers := [] } : Transaction).loadReaders env) :=
    ⟨[], by simpa [Transaction.loadReaders] using hl.2.1, Or.inl (by simp)⟩
  split
  next t1 heq =>
    rw [heq] at h0
    exact tracks_trans h0 (tracks_realizeLoaded env t1)
  next => exact h0


theorem perform_transactions (env : Env) (t : Transaction) (c : Call) (apply : State → State)
    (h : ∀ s, (apply s).Transactions = s.Transactions) :
    (t.perform env c apply).1.state.Transactions = t.state.Transactions := by
  unfold Transaction.perform
  cases env.fails c with
  | none => exact h t.state
  | some e => rfl

theorem perform_failed_state (env : Env) (t : Transaction) (c : Call) (apply : State → State)
    (t1 : Transaction) (e : Error) (h : t.perform env c apply = (t1, .failed e)) :
    t1.state = t.state := by
  unfold Transaction.perform at h
  cases hf : env.fails c with
  | none =>
    rw [hf] at h
    cases h
  | some e2 =>
    rw [hf] at h
    cases h
    rfl

theorem performAll_transactions {α : Type} (env : Env) (call : α → Call)
    (apply : α → State → State) (h : ∀ x s, (apply x s).Transactions = s.Transactions) :
    ∀ (l : List α) (t : Transaction),
      (Transaction.performAll env call apply t l).1.state.Transactions = t.state.Transactions
  | [], _ => rfl
  | x :: rest, t => by
    unfold Transaction.performAll
    have h1 := perform_transactions env t (call x) (apply x) (h x)
    split
    next t1 heq =>
      rw [heq] at h1
      rw [performAll_transactions env call apply h rest t1]
      exact h1
    next => exact h1

theorem install_transactions (env : Env) (t : Transaction) (pkg : Pkg) :
    (t.install env pkg).1.state.Transactions = t.state.Transactions := by
  unfold Transaction.install
  cases t.reader pkg.Name with
  | none => rfl
  | some reader =>
    dsimp only
    cases env.NewPkgFromManifest reader.Manifest with
    | error e => rfl
    | ok p =>
      dsimp only
      have h1 := performAll_transactions env
        (fun fsObject => Call.provider "install" fsObject) (fun _ s => s) (fun _ _ => rfl)
        (sortActions (reader.Manifest.Section ["dir", "file", "symlink"])) t
      split
      next t1 heq =>
        rw [heq] at h1
        have h2 := perform_transactions env t1 (.packagesPut p.Name reader.Manifest)
          (fun s => s.PackagesPut p.Name reader.Manifest) (fun _ => rfl)
        split
        next t2 heq2 =>
          rw [heq2] at h2
          have h3 := performAll_transactions env
            (fun fsObject => Call.objectsPut fsObject.Key p.Name fsObject.Type)
            (fun fsObject s => s.ObjectsPut fsObject.Key p.Name fsObject.Type)
            (fun _ _ => rfl)
            (sortActions (reader.Manifest.Section ["dir", "file", "symlink"])) t2
          rw [h3, h2]
          exact h1
        next => rw [h2]; exact h1
      next => exact h1

theorem remove_transactions (env : Env) (t : Transaction) (pkg : Pkg) :
    (t.remove env pkg).1.state.Transactions = t.state.Transactions := by
  unfold Transaction.remove
  cases env.fails (.packagesGet pkg.Name) with
  | some e => rfl
  | none =>
    dsimp only
    cases t.state.PackagesGet pkg.Name with
    | none => rfl
    | some lookup =>
      dsimp only
      cases env.NewPkgFromManifest lookup with
      | error e => rfl
      | ok p =>
        dsimp only
        have h1 := performAll_transactions env
          (fun fsObject => Call.provider "remove" fsObject) (fun _ s => s) (fun _ _ => rfl)
          (sortActionsReverse (lookup.Section ["dir", "file", "symlink"])) t
        split
        next t1 heq =>
          rw [heq] at h1
          have h2 := perform_transactions env t1 (.packagesDel p.Name)
            (fun s => s.PackagesDel p.Name) (fun _ => rfl)
          split
          next t2 heq2 =>
            rw [heq2] at h2
            have h3 := performAll_transactions env
              (fun fsObject => Call.objectsDel fsObject.Key p.Name)
              (fun fsObject s => s.ObjectsDel fsObject.Key p.Name) (fun _ _ => rfl)
              (sortActionsReverse (lookup.Section ["dir", "file", "symlink"])) t2
            split
            next t3 heq3 =>
              rw [heq3] at h3
              rw [h3, h2]; exact h1
            next => rw [h3, h2]; exact h1
          next => rw [h2]; exact h1
        next => exact h1

theorem record_transactions (env : Env) (t : Transaction) (pkgId operation : String) :
    (t.record env pkgId operation).1.state.Transactions = t.state.Transactions ∨
    (t.record env pkgId operation).1.state.Transactions
      = t.state.Transactions ++ [⟨t.id, pkgId, operation, t.date⟩] := by
  unfold Transaction.record Transaction.perform
  cases env.fails (.transactionsPut t.id pkgId operation t.date) with
  | none => exact Or.inr rfl
  | some e => exact Or.inl rfl

theorem dispatch_transactions (env : Env) (t : Transaction) (operation : Operation) :
    LogsOnlyPairedRemove operation.Operation t (t.dispatch env operation) := by
  have hnone : ∀ r : Transaction × Outcome,
      r.1.state.Transactions = t.state.Transactions →
      LogsOnlyPairedRemove operation.Operation t r := by
    intro r h
    exact ⟨[], by simpa using h, by simp⟩
  unfold Transaction.dispatch
  split_ifs with h1 h2
  · exact hnone _ (remove_transactions env t _)
  · cases env.fails (.packagesGet operation.Package.Name) with
    | some e => exact hnone _ rfl
    | none =>
      dsimp only
      cases t.state.PackagesGet operation.Package.Name with
      | none => exact hnone _ (install_transactions env t _)
      | some lookup =>
        dsimp only
        cases env.NewPkgFromManifest lookup with
        | error e => exact hnone _ rfl
        | ok lns =>
          dsimp only
          have hr := remove_transactions env t operation.Package
          split
          next t1 heq =>
            rw [heq] at hr
            have hrec := record_transactions env t1 lns.Id "remove"
            have hpair : ∀ r : Transaction × Outcome,
                (r.1.state.Transactions = t1.state.Transactions ∨
                  r.1.state.Transactions
                    = t1.state.Transactions ++ [⟨t1.id, lns.Id, "remove", t1.date⟩]) →
                LogsOnlyPairedRemove operation.Operation t r := by
              intro r h
              rcases h with h | h
              · exact hnone r (h.trans hr)
              · refine ⟨[⟨t1.id, lns.Id, "remove", t1.date⟩], by rw [h, hr], ?_⟩
                intro x hx
                rw [List.mem_singleton.1 hx]
                exact ⟨rfl, h2⟩
            split
            next t2 heq2 =>
              rw [heq2] at hrec
              apply hpair
              rw [install_transactions env t2 _]
              exact hrec
            next => exact hpair _ hrec
          next => exact hnone _ hr
  · exact hnone _ rfl

/-- A step that returns an error has appended no entry of its own operation
to `Transactions`. -/
theorem step_failed_transactions (env : Env) (t : Transaction) (operation : Operation)
    (t1 : Transaction) (e : Error) (h : t.step env operation = (t1, .failed e)) :
    ∃ added, t1.state.Transactions = t.state.Transactions ++ added ∧
      ∀ x ∈ added, x.Operation ≠ operation.Operation := by
  have key : ∀ r : Transaction × Outcome, LogsOnlyPairedRemove operation.Operation t r →
      ∃ added, r.1.state.Transactions = t.state.Transactions ++ added ∧
        ∀ x ∈ added, x.Operation ≠ operation.Operation := by
    rintro r ⟨added, h1, h2⟩
    refine ⟨added, h1, ?_⟩
    intro x hx
    obtain ⟨hx1, hx2⟩ := h2 x hx
    rw [hx1, hx2]
    decide
  have hd := dispatch_transactions env t operation
  unfold Transaction.step at h
  split at h
  next t2 heq =>
    rw [heq] at hd
    split_ifs at h with hn
    · have hs := perform_failed_state env t2 _ _ t1 e h
      obtain ⟨added, h1, h2⟩ := key _ hd
      exact ⟨added, by rw [hs]; exact h1, h2⟩
    · cases h
  next =>
    rw [h] at hd
    exact key _ hd

theorem apply_stops (env : Env) (operation : Operation) (rest : List Operation)
    (t1 t2 : Transaction) (o : Outcome) (ho : o ≠ .ok)
    (hstep : t1.step env operation = (t2, o)) :
    ∀ (pre : List Operation) (t0 : Transaction),
      Transaction.apply env t0 pre = (t1, .ok) →
      Transaction.apply env t0 (pre ++ operation :: rest) = (t2, o)
  | [], t0, h => by
    have h0 : t0 = t1 := by
      simp only [Transaction.apply] at h
      exact (Prod.mk.inj h).1
    subst h0
    simp only [List.nil_append, Transaction.apply, hstep]
    cases o <;> simp at ho ⊢
  | p :: pre, t0, h => by
    simp only [List.cons_append, Transaction.apply] at h ⊢
    split at h
    next t3 heq =>
      exact apply_stops env operation rest t1 t2 o ho hstep pre t3 h
    next hne =>
      rcases hp : t0.step env p with ⟨t3, o3⟩
      rw [hp] at h
      cases h
      exact absurd hp (hne t1)

theorem step_read_fails (env : Env) (t : Transaction) (operation : Operation) (e : Error)
    (hop : operation.Operation = "remove" ∨ operation.Operation = "install")
    (hf : env.fails (.packagesGet operation.Package.Name) = some e) :
    t.step env operation = (t, .failed e) := by
  rcases hop with h | h
  · simp [Transaction.step, Transaction.dispatch, Transaction.remove, h, hf]
  · simp [Transaction.step, Transaction.dispatch, h, hf]


theorem StopsAtError.first_error {env : Env} {calls : List Call} {out : Outcome}
    (h : StopsAtError env calls out) :
    (∀ c ∈ calls.dropLast, env.fails c = none) ∧
    (∀ c e, c ∈ calls → env.fails c = some e →
      calls.getLast? = some c ∧ out = .failed e) := by
  rcases h with h | ⟨pre, c0, e0, hc, hpre, hf, ho⟩
  · refine ⟨fun c hc => h c (List.mem_of_mem_dropLast hc), ?_⟩
    intro c e hc hfc
    rw [h c hc] at hfc
    cases hfc
  · subst hc
    refine ⟨by rw [List.dropLast_concat]; exact hpre, ?_⟩
    intro c e hc hfc
    rcases List.mem_append.1 hc with h1 | h1
    · rw [hpre c h1] at hfc
      cases hfc
    · have hcc : c = c0 := List.mem_singleton.1 h1
      subst hcc
      rw [hf] at hfc
      cases hfc
      exact ⟨List.getLast?_concat pre, ho⟩

/-- C13. The provider calls and database writes that `Realize` makes stop at
the first one that returns an error: every call before the last returned no
error, and a call that returns an error is the last one made and its error is
what `Realize` returns. The loop over the operations ends at the first step
that returns an error, whatever operations remain. A `Packages.Get` that fails
makes the step return its error with the transaction as it was. A step that
returns an error has appended no entry of its operation to `Transactions`. -/
theorem Realize_stops_at_first_error (env : Env) (t : Transaction) (solution : Solution) :
    (∃ calls, (t.Realize env solution).1.log = t.log ++ calls ∧
      (∀ c ∈ calls.dropLast, env.fails c = none) ∧
      (∀ c e, c ∈ calls → env.fails c = some e →
        calls.getLast? = some c ∧ (t.Realize env solution).2 = .failed e)) ∧
    (∀ (t0 t1 t2 : Transaction) (pre rest : List Operation) (operation : Operation)
        (e : Error),
      Transaction.apply env t0 pre = (t1, .ok) →
      t1.step env operation = (t2, .failed e) →
      Transaction.apply env t0 (pre ++ operation :: rest) = (t2, .failed e)) ∧
    (∀ (t0 : Transaction) (operation : Operation) (e : Error),
      (operation.Operation = "remove" ∨ operation.Operation = "install") →
      env.fails (.packagesGet operation.Package.Name) = some e →
      t0.step env operation = (t0, .failed e)) ∧
    (∀ (t0 t1 : Transaction) (operation : Operation) (e : Error),
      t0.step env operation = (t1, .failed e) →
      ∃ added, t1.state.Transactions = t0.state.Transactions ++ added ∧
        ∀ x ∈ added, x.Operation ≠ operation.Operation) := by
  refine ⟨?_, ?_, ?_, ?_⟩
  · obtain ⟨calls, hlog, hstop⟩ := tracks_Realize env t solution
    exact ⟨calls, hlog, hstop.first_error.1, hstop.first_error.2⟩
  · intro t0 t1 t2 pre rest operation e hpre hstep
    exact apply_stops env operation rest t1 t2 _ (by simp) hstep pre t0 hpre
  · intro t0 operation e hop hf
    exact step_read_fails env t0 operation e hop hf
  · intro t0 t1 operation e h
    exact step_failed_transactions env t0 operation t1 e h

theorem Realize_stops_at_first_error_witness :
    failingEnv.fails (.packagesPut "Q" (fileManifest "Q" "1.0.0" "/etc/x"))
      = some (.external "disk full") ∧
    ((NewTransaction "/" emptyState "tx1" 7).Realize failingEnv installPQ).2
      = .failed (.external "disk full") ∧
    ((NewTransaction "/" emptyState "tx1" 7).Realize failingEnv installPQ).1.log
      = [.packagesPut "P" (fileManifest "P" "1.0.0" "/etc/x"),
         .transactionsPut "tx1" "P@1.0.0" "install" 7,
         .packagesPut "Q" (fileManifest "Q" "1.0.0" "/etc/x")] ∧
    ((NewTransaction "/" emptyState "tx1" 7).Realize failingEnv installPQ).1.state.Transactions
      = [⟨"tx1", "P@1.0.0", "install", 7⟩] ∧
    ∃ calls, ((NewTransaction "/" emptyState "tx1" 7).Realize failingEnv installPQ).1.log
        = (NewTransaction "/" emptyState "tx1" 7).log ++ calls ∧
      (∀ c ∈ calls.dropLast, failingEnv.fails c = none) ∧
      (∀ c e, c ∈ calls → failingEnv.fails c = some e →
        calls.getLast? = some c ∧
        ((NewTransaction "/" emptyState "tx1" 7).Realize failingEnv installPQ).2
          = .failed e) :=
  ⟨rfl, rfl, rfl, rfl,
    (Realize_stops_at_first_error failingEnv (NewTransaction "/" emptyState "tx1" 7)
      installPQ).1⟩

end zpm
